import Mathlib

/-!
Recursive sphere ray tracer (`Source.cpp`): embedding and verified properties.

The program's `float` values are embedded as elements of a linearly ordered
field `F`; the theorems that need exact square roots instantiate `F` with the
real numbers and `sqrt` with `Real.sqrt`.  The library functions `sqrt`, `sin`
and `cos` are explicit parameters of the definitions that call them, so every
definition below is executable over any field with decidable order (for
instance over the rationals).  Rounding is modelled separately, in the section
on binary32 arithmetic, for the statement that depends on it; infinities and
NaN are outside both models.

The global variables `spheres`, `light` and `timeValue` are collected in the
structure `Scene`, which is passed explicitly.
-/

namespace RayTracer

/-! ## Data model -/

/-- The source's `struct Vec3`. -/
@[ext]
structure Vec3 (F : Type) where
  x : F
  y : F
  z : F

/-- The source's `struct Sphere`, fields in declaration order. -/
structure Sphere (F : Type) where
  center : Vec3 F
  radius : F
  color : Vec3 F
  reflectivity : F
  transparency : F
  refractiveIndex : F
  originalCenter : Vec3 F

/-- The source's `struct Ray`. -/
structure Ray (F : Type) where
  origin : Vec3 F
  direction : Vec3 F

/-- The source's `struct Light`. -/
structure Light (F : Type) where
  position : Vec3 F
  color : Vec3 F
  intensity : F

/-- The global state of the program: `spheres`, `light` and `timeValue`. -/
structure Scene (F : Type) where
  spheres : List (Sphere F)
  light : Light F
  timeValue : F

section Defs

variable {F : Type} [LinearOrderedField F]

/-! ## Vector arithmetic -/

/-- The source's `Vec3::operator+`. -/
def Vec3.add (u v : Vec3 F) : Vec3 F := ⟨u.x + v.x, u.y + v.y, u.z + v.z⟩

/-- The source's `Vec3::operator-`. -/
def Vec3.sub (u v : Vec3 F) : Vec3 F := ⟨u.x - v.x, u.y - v.y, u.z - v.z⟩

/-- The source's `Vec3::operator*(float)`. -/
def Vec3.scale (u : Vec3 F) (s : F) : Vec3 F := ⟨u.x * s, u.y * s, u.z * s⟩

/-- The source's `Vec3::operator/(float)`. -/
def Vec3.divide (u : Vec3 F) (s : F) : Vec3 F := ⟨u.x / s, u.y / s, u.z / s⟩

instance : Add (Vec3 F) := ⟨Vec3.add⟩

instance : Sub (Vec3 F) := ⟨Vec3.sub⟩

instance : HMul (Vec3 F) F (Vec3 F) := ⟨Vec3.scale⟩

instance : HDiv (Vec3 F) F (Vec3 F) := ⟨Vec3.divide⟩

/-- The source's `Vec3::dot`. -/
def Vec3.dot (u v : Vec3 F) : F := u.x * v.x + u.y * v.y + u.z * v.z

/-- The source's `Vec3::length`. -/
def Vec3.length (sqrt : F → F) (u : Vec3 F) : F :=
  sqrt (u.x * u.x + u.y * u.y + u.z * u.z)

/-- The source's `Vec3::normalize`.  For a vector of length zero the field
division gives the zero vector (`x / 0 = 0`) where the `float` code gives NaN
components; the statements below about normals are made for hits on spheres of
positive radius, where the length is the radius. -/
def Vec3.normalize (sqrt : F → F) (u : Vec3 F) : Vec3 F :=
  let l := u.length sqrt
  ⟨u.x / l, u.y / l, u.z / l⟩

/-- The source's `Vec3::cross`. -/
def Vec3.cross (u v : Vec3 F) : Vec3 F :=
  ⟨u.y * v.z - u.z * v.y, u.z * v.x - u.x * v.z, u.x * v.y - u.y * v.x⟩

/-- The source's `Ray::pointAt`. -/
def Ray.pointAt (ray : Ray F) (t : F) : Vec3 F := ray.origin + ray.direction * t

/-! ## Intersection -/

/-- The source's `intersectSphere`: `some t` when the function returns `true` having written
`t`, `none` when it returns `false`. -/
def intersectSphere (sqrt : F → F) (ray : Ray F) (sphere : Sphere F) : Option F :=
  let oc := ray.origin - sphere.center
  let a := ray.direction.dot ray.direction
  let b := 2 * oc.dot ray.direction
  let c := oc.dot oc - sphere.radius * sphere.radius
  let discr := b * b - 4 * a * c
  if discr < 0 then none
  else
    let t := (-b - sqrt discr) / (2 * a)
    if t > 0 then some t else none

/-! ## Direct lighting -/

/-- The shadow loop of `computeLighting`: the first sphere that the shadow ray
hits multiplies `diffuse` by `0.2` and ends the loop (`break`). -/
def shadowLoop (sqrt : F → F) (shadowRay : Ray F) : List (Sphere F) → F → F
  | [], diffuse => diffuse
  | sphere :: rest, diffuse =>
    if (intersectSphere sqrt shadowRay sphere).isSome then diffuse * 0.2
    else shadowLoop sqrt shadowRay rest diffuse

/-- The source's `computeLighting`. -/
def computeLighting (sqrt : F → F) (sc : Scene F) (point normal color : Vec3 F) : Vec3 F :=
  let lightDir := (sc.light.position - point).normalize sqrt
  let diffuse := max 0 (normal.dot lightDir) * sc.light.intensity
  let shadowRay : Ray F := ⟨point + normal * (0.001 : F), lightDir⟩
  color * shadowLoop sqrt shadowRay sc.spheres diffuse

/-! ## Reflection and refraction -/

/-- The source's `reflect`. -/
def reflect (incident normal : Vec3 F) : Vec3 F :=
  incident - normal * (2 : F) * incident.dot normal

/-- The source's `refract`: `some refracted` when the function returns `true`, `none` when
it returns `false` (total internal reflection). -/
def refract (sqrt : F → F) (incident normal : Vec3 F) (n1 n2 : F) : Option (Vec3 F) :=
  let norm := normal
  let n := n1 / n2
  let cosI := -incident.dot norm
  let sinT2 := n * n * (1 - cosI * cosI)
  if sinT2 > 1 then none
  else
    let cosT := sqrt (1 - sinT2)
    some (incident * n + norm * (n * cosI - cosT))

/-! ## Recursive trace -/

/-- The body of the nearest-hit loop of `traceRay`, for the sphere at index
`i`.  The loop state `(tMin, hitSphere)` is `none` for the initial
`(INFINITY, nullptr)` and `some (tMin, j, hit)` once a sphere has been
recorded, the pointer `hitSphere` being the index `j` of a sphere in `spheres`
together with the sphere `hit` it points to.  Every `t` is less than the
initial `tMin = INFINITY`. -/
def nearestStep (sqrt : F → F) (ray : Ray F) (sphere : Sphere F) (i : Nat)
    (st : Option (F × Nat × Sphere F)) : Option (F × Nat × Sphere F) :=
  match intersectSphere sqrt ray sphere with
  | some t =>
    match st with
    | none => some (t, i, sphere)
    | some (tMin, j, hit) => if t < tMin then some (t, i, sphere) else some (tMin, j, hit)
  | none => st

/-- The nearest-hit loop of `traceRay` over the remaining spheres, the second
argument being the index of the head of the remaining list. -/
def nearestLoop (sqrt : F → F) (ray : Ray F) :
    List (Sphere F) → Nat → Option (F × Nat × Sphere F) → Option (F × Nat × Sphere F)
  | [], _, st => st
  | sphere :: rest, i, st =>
    nearestLoop sqrt ray rest (i + 1) (nearestStep sqrt ray sphere i st)

/-- The nearest-hit scan of `traceRay` over the whole scene. -/
def nearestHit (sqrt : F → F) (ray : Ray F) (spheres : List (Sphere F)) :
    Option (F × Nat × Sphere F) :=
  nearestLoop sqrt ray spheres 0 none

/-- The source's `traceRay`.  The recursion depth is the source's `int`; every recursive
call is made with `depth + 1` where `depth ≤ 5`, so no overflow can occur. -/
def traceRay (sqrt : F → F) (sc : Scene F) (ray : Ray F) (depth : Int) : Vec3 F :=
  if depth > 5 then ⟨0, 0, 0⟩
  else
    match nearestHit sqrt ray sc.spheres with
    | none => ⟨0.1, 0.1, 0.1⟩
    | some (tMin, _, hitSphere) =>
      let hitPoint := ray.pointAt tMin
      let normal := (hitPoint - hitSphere.center).normalize sqrt
      let color := computeLighting sqrt sc hitPoint normal hitSphere.color
      if hitSphere.reflectivity > 0 ∨ hitSphere.transparency > 0 then
        let reflectDir := (reflect ray.direction normal).normalize sqrt
        let reflectRay : Ray F := ⟨hitPoint + normal * (0.001 : F), reflectDir⟩
        let reflectColor := traceRay sqrt sc reflectRay (depth + 1)
        if hitSphere.transparency > 0 then
          let inside : Bool := decide (ray.direction.dot normal > 0)
          let norm := if inside then normal * (-1 : F) else normal
          let n1 := if inside then hitSphere.refractiveIndex else 1
          let n2 := if inside then 1 else hitSphere.refractiveIndex
          let refractColor : Vec3 F :=
            match refract sqrt ray.direction norm n1 n2 with
            | some refractDir =>
              traceRay sqrt sc ⟨hitPoint - norm * (0.001 : F), refractDir.normalize sqrt⟩
                (depth + 1)
            | none => ⟨0, 0, 0⟩
          let fresnel := 0.1 + 0.9 * (1 - |ray.direction.dot normal|) ^ 5
          color * (1 - hitSphere.transparency) +
            (reflectColor * fresnel + refractColor * (1 - fresnel)) * hitSphere.transparency
        else
          color * (1 - hitSphere.reflectivity) + reflectColor * hitSphere.reflectivity
      else color
termination_by (6 - depth).toNat
decreasing_by all_goals (simp_wf; omega)

/-! ## Animation -/

/-- The body of the sphere loop of `updateScene` for the sphere at index `i`:
`center.y` is assigned first, then `center.x`. -/
def updateSphere (sin cos : F → F) (timeValue : F) (i : Nat) (sphere : Sphere F) : Sphere F :=
  let t := timeValue * ((i + 1 : Nat) : F) * 0.5
  let c1 : Vec3 F := { sphere.center with y := sphere.originalCenter.y + sin t * 0.5 }
  let c2 : Vec3 F := { c1 with x := sphere.originalCenter.x + cos t * 0.5 }
  { sphere with center := c2 }

/-- The sphere loop of `updateScene`, the first argument being the loop
index `i` of the head of the list. -/
def updateSpheres (sin cos : F → F) (timeValue : F) : Nat → List (Sphere F) → List (Sphere F)
  | _, [] => []
  | i, sphere :: rest =>
    updateSphere sin cos timeValue i sphere :: updateSpheres sin cos timeValue (i + 1) rest

/-- The source's `updateScene`, the argument `elapsed` being the value of
`glutGet(GLUT_ELAPSED_TIME) / 1000.0f`. -/
def updateScene (sin cos : F → F) (elapsed : F) (sc : Scene F) : Scene F :=
  let timeValue := elapsed
  let spheres := updateSpheres sin cos timeValue 0 sc.spheres
  let p1 : Vec3 F := { sc.light.position with x := 5 * cos (timeValue * 0.5) }
  let p2 : Vec3 F := { p1 with y := 5 * sin (timeValue * 0.5) }
  { spheres := spheres, light := { sc.light with position := p2 }, timeValue := timeValue }

/-! ## The initial scene -/

/-- The initial value of the global `spheres`. -/
def initialSpheres : List (Sphere F) :=
  [ ⟨⟨0, 0, -5⟩, 1, ⟨1, 0.2, 0.2⟩, 0, 0, 1, ⟨0, 0, -5⟩⟩,
    ⟨⟨2, 0, -5⟩, 1, ⟨0.2, 0.2, 0.2⟩, 0.9, 0, 1, ⟨2, 0, -5⟩⟩,
    ⟨⟨-2, 0, -5⟩, 1, ⟨0.9, 0.9, 0.9⟩, 0.1, 0.9, 1.5, ⟨-2, 0, -5⟩⟩ ]

/-- The initial value of the global `light`. -/
def initialLight : Light F := ⟨⟨5, 5, -3⟩, ⟨1, 1, 1⟩, 1.5⟩

/-- The initial global state. -/
def initialScene : Scene F := ⟨initialSpheres, initialLight, 0⟩

/-! ## Names for intermediate values of the source

These definitions name local variables of `intersectSphere` and
`computeLighting`, so that statements about them can be written down. -/

/-- The coefficient `a` of the quadratic solved by `intersectSphere`. -/
def quadA (ray : Ray F) : F :=
  ray.direction.dot ray.direction

/-- The coefficient `b` of the quadratic solved by `intersectSphere`. -/
def quadB (ray : Ray F) (sphere : Sphere F) : F :=
  2 * (ray.origin - sphere.center).dot ray.direction

/-- The coefficient `c` of the quadratic solved by `intersectSphere`. -/
def quadC (ray : Ray F) (sphere : Sphere F) : F :=
  (ray.origin - sphere.center).dot (ray.origin - sphere.center) - sphere.radius * sphere.radius

/-- The local `discr` of `intersectSphere`. -/
def discriminant (ray : Ray F) (sphere : Sphere F) : F :=
  quadB ray sphere * quadB ray sphere - 4 * quadA ray * quadC ray sphere

/-- The root `(-b - sqrt discr) / (2 a)` that `intersectSphere` writes to `t`. -/
def smallerRoot (sqrt : F → F) (ray : Ray F) (sphere : Sphere F) : F :=
  (-quadB ray sphere - sqrt (discriminant ray sphere)) / (2 * quadA ray)

/-- The other root `(-b + sqrt discr) / (2 a)` of the quadratic, which the
source never computes. -/
def largerRoot (sqrt : F → F) (ray : Ray F) (sphere : Sphere F) : F :=
  (-quadB ray sphere + sqrt (discriminant ray sphere)) / (2 * quadA ray)

/-- The local `lightDir` of `computeLighting`. -/
def lightDir (sqrt : F → F) (sc : Scene F) (point : Vec3 F) : Vec3 F :=
  (sc.light.position - point).normalize sqrt

/-- The local `shadowRay` of `computeLighting`. -/
def shadowRay (sqrt : F → F) (sc : Scene F) (point normal : Vec3 F) : Ray F :=
  ⟨point + normal * (0.001 : F), lightDir sqrt sc point⟩

/-- The value of the local `diffuse` of `computeLighting` before the shadow
loop: `max(0, normal . lightDir) * light.intensity`. -/
def diffuseTerm (sqrt : F → F) (sc : Scene F) (point normal : Vec3 F) : F :=
  max 0 (normal.dot (lightDir sqrt sc point)) * sc.light.intensity

/-- The statement that `st` is a correct final state of the nearest-hit scan
over `spheres`: nothing recorded and no sphere hit, or a recorded sphere of
least hit distance that comes first among the spheres of that distance. -/
def IsNearest (sqrt : F → F) (ray : Ray F) (spheres : List (Sphere F)) :
    Option (F × Nat × Sphere F) → Prop
  | none => ∀ s ∈ spheres, intersectSphere sqrt ray s = none
  | some (t, i, s) =>
    spheres[i]? = some s ∧ intersectSphere sqrt ray s = some t ∧
      ∀ (j : Nat) (s2 : Sphere F) (t2 : F), spheres[j]? = some s2 →
        intersectSphere sqrt ray s2 = some t2 → t ≤ t2 ∧ (t2 = t → i ≤ j)

/-! ## Names for intermediate values of `traceRay` -/

/-- The local `normal` of `traceRay` for the sphere `hit` found at distance
`tMin`. -/
def hitNormal (sqrt : F → F) (ray : Ray F) (hit : Sphere F) (tMin : F) : Vec3 F :=
  (ray.pointAt tMin - hit.center).normalize sqrt

/-- The local `reflectRay` of `traceRay`. -/
def reflectRay (sqrt : F → F) (ray : Ray F) (hit : Sphere F) (tMin : F) : Ray F :=
  ⟨ray.pointAt tMin + hitNormal sqrt ray hit tMin * (0.001 : F),
    (reflect ray.direction (hitNormal sqrt ray hit tMin)).normalize sqrt⟩

/-- The local `inside` of `traceRay`, computed with exact field operations;
`insideFlag32` below is the same flag computed with binary32 rounding. -/
def insideFlag (sqrt : F → F) (ray : Ray F) (hit : Sphere F) (tMin : F) : Bool :=
  decide (ray.direction.dot (hitNormal sqrt ray hit tMin) > 0)

/-- The local `norm` of `traceRay`: the normal handed to `refract`. -/
def refractNorm (sqrt : F → F) (ray : Ray F) (hit : Sphere F) (tMin : F) : Vec3 F :=
  if insideFlag sqrt ray hit tMin then hitNormal sqrt ray hit tMin * (-1 : F)
  else hitNormal sqrt ray hit tMin

/-- The local `n1` of `traceRay`. -/
def refractN1 (sqrt : F → F) (ray : Ray F) (hit : Sphere F) (tMin : F) : F :=
  if insideFlag sqrt ray hit tMin then hit.refractiveIndex else 1

/-- The local `n2` of `traceRay`. -/
def refractN2 (sqrt : F → F) (ray : Ray F) (hit : Sphere F) (tMin : F) : F :=
  if insideFlag sqrt ray hit tMin then 1 else hit.refractiveIndex

/-- The local `refractRay` of `traceRay` for the direction `refractDir` written
by `refract`. -/
def refractRay (sqrt : F → F) (ray : Ray F) (hit : Sphere F) (tMin : F)
    (refractDir : Vec3 F) : Ray F :=
  ⟨ray.pointAt tMin - refractNorm sqrt ray hit tMin * (0.001 : F), refractDir.normalize sqrt⟩

/-- The local `fresnel` of `traceRay`, for the ray direction and the normal. -/
def fresnel (direction normal : Vec3 F) : F :=
  0.1 + 0.9 * (1 - |direction.dot normal|) ^ 5

/-- The colour that `traceRay` returns for the sphere `hit` found at distance
`tMin`, given the colours `reflectColor` and `refractColor` of the two
recursive calls: the statements of `traceRay` after the nearest-hit loop with
the recursive calls taken out. -/
def shade (sqrt : F → F) (sc : Scene F) (ray : Ray F) (hit : Sphere F) (tMin : F)
    (reflectColor refractColor : Vec3 F) : Vec3 F :=
  let normal := hitNormal sqrt ray hit tMin
  let color := computeLighting sqrt sc (ray.pointAt tMin) normal hit.color
  if hit.reflectivity > 0 ∨ hit.transparency > 0 then
    if hit.transparency > 0 then
      color * (1 - hit.transparency) +
        (reflectColor * fresnel ray.direction normal +
          refractColor * (1 - fresnel ray.direction normal)) * hit.transparency
    else
      color * (1 - hit.reflectivity) + reflectColor * hit.reflectivity
  else color

/-- The source's `traceRay` run with a bound `fuel` on the number of nested
activations: an activation that would have to start with no fuel left yields
`none`, and so does every activation that waits for it.  The recursive calls
are made where the source makes them: the reflection call when
`reflectivity > 0 || transparency > 0`, the refraction call when moreover
`transparency > 0` and `refract` returns `true`. -/
def traceRayFuel (sqrt : F → F) (sc : Scene F) : Nat → Ray F → Int → Option (Vec3 F)
  | 0, _, _ => none
  | fuel + 1, ray, depth =>
    if depth > 5 then some ⟨0, 0, 0⟩
    else
      match nearestHit sqrt ray sc.spheres with
      | none => some ⟨0.1, 0.1, 0.1⟩
      | some (tMin, _, hit) =>
        if hit.reflectivity > 0 ∨ hit.transparency > 0 then
          match traceRayFuel sqrt sc fuel (reflectRay sqrt ray hit tMin) (depth + 1) with
          | none => none
          | some reflectColor =>
            if hit.transparency > 0 then
              match refract sqrt ray.direction (refractNorm sqrt ray hit tMin)
                  (refractN1 sqrt ray hit tMin) (refractN2 sqrt ray hit tMin) with
              | some refractDir =>
                match traceRayFuel sqrt sc fuel (refractRay sqrt ray hit tMin refractDir)
                    (depth + 1) with
                | none => none
                | some refractColor =>
                  some (shade sqrt sc ray hit tMin reflectColor refractColor)
              | none => some (shade sqrt sc ray hit tMin reflectColor ⟨0, 0, 0⟩)
            else some (shade sqrt sc ray hit tMin reflectColor ⟨0, 0, 0⟩)
        else some (shade sqrt sc ray hit tMin ⟨0, 0, 0⟩ ⟨0, 0, 0⟩)

/-- Two spheres are identical except possibly for their reflectivity, which
may differ only when the transparency is positive. -/
def Sphere.SameButReflectivity (s1 s2 : Sphere F) : Prop :=
  s1.center = s2.center ∧ s1.radius = s2.radius ∧ s1.color = s2.color ∧
    s1.transparency = s2.transparency ∧ s1.refractiveIndex = s2.refractiveIndex ∧
    s1.originalCenter = s2.originalCenter ∧
    (s1.reflectivity = s2.reflectivity ∨ 0 < s1.transparency)

/-- Two scenes are identical except for the reflectivity of spheres whose
transparency is positive. -/
def Scene.SameButReflectivity (sc1 sc2 : Scene F) : Prop :=
  List.Forall₂ Sphere.SameButReflectivity sc1.spheres sc2.spheres ∧
    sc1.light = sc2.light ∧ sc1.timeValue = sc2.timeValue

/-- Two states of the nearest-hit loop record the same distance and index and
spheres that are identical except for reflectivity. -/
def SameHit : Option (F × Nat × Sphere F) → Option (F × Nat × Sphere F) → Prop
  | none, none => True
  | some (t1, i1, s1), some (t2, i2, s2) =>
    t1 = t2 ∧ i1 = i2 ∧ Sphere.SameButReflectivity s1 s2
  | _, _ => False

/-- The initial scene with the reflectivity of the glass sphere changed from
`0.1` to `0.7`. -/
def initialSceneAlt : Scene F :=
  ⟨[ ⟨⟨0, 0, -5⟩, 1, ⟨1, 0.2, 0.2⟩, 0, 0, 1, ⟨0, 0, -5⟩⟩,
     ⟨⟨2, 0, -5⟩, 1, ⟨0.2, 0.2, 0.2⟩, 0.9, 0, 1, ⟨2, 0, -5⟩⟩,
     ⟨⟨-2, 0, -5⟩, 1, ⟨0.9, 0.9, 0.9⟩, 0.7, 0.9, 1.5, ⟨-2, 0, -5⟩⟩ ],
    initialLight, 0⟩

/-- The three components of a colour are non-negative. -/
def Vec3.Nonneg (v : Vec3 F) : Prop := 0 ≤ v.x ∧ 0 ≤ v.y ∧ 0 ≤ v.z

/-- The ranges of the data model for a sphere: positive radius, albedo in
`[0, 1]^3`, reflectivity and transparency in `[0, 1]`, positive refractive
index. -/
def Sphere.InRange (s : Sphere F) : Prop :=
  0 < s.radius ∧
    (0 ≤ s.color.x ∧ s.color.x ≤ 1) ∧ (0 ≤ s.color.y ∧ s.color.y ≤ 1) ∧
    (0 ≤ s.color.z ∧ s.color.z ≤ 1) ∧
    (0 ≤ s.reflectivity ∧ s.reflectivity ≤ 1) ∧
    (0 ≤ s.transparency ∧ s.transparency ≤ 1) ∧
    0 < s.refractiveIndex

/-- The ranges of the data model for a scene: every sphere in range and a
non-negative light intensity. -/
def Scene.InRange (sc : Scene F) : Prop :=
  (∀ s ∈ sc.spheres, s.InRange) ∧ 0 ≤ sc.light.intensity

/-- The ray from `(2, 0, 0)` in direction `(0, 0, -1)`, which points at the
mirror sphere of the initial scene. -/
def mirrorRay : Ray F := ⟨⟨2, 0, 0⟩, ⟨0, 0, -1⟩⟩

/-- The sphere and the light of a scene in which the only sphere lies beyond
the light, seen from the origin along the z-axis. -/
def beyondScene : Scene F :=
  ⟨[⟨⟨0, 0, 5⟩, 1, ⟨1, 1, 1⟩, 0, 0, 1, ⟨0, 0, 5⟩⟩], ⟨⟨0, 0, 2⟩, ⟨1, 1, 1⟩, 1.5⟩, 0⟩

/-! ## Binary32 arithmetic

The definitions above compute with exact field operations.  The ones below
compute as the program does on its `float` values: every operation is rounded
to the nearest IEEE 754 binary32 number, ties to even.  A binary32 number is
represented by the rational number it denotes, and a result outside the normal
range of binary32 (overflow, a subnormal, a division by zero, the square root
of a negative number) is `none`: the model says nothing about a computation in
which one occurs. -/

/-- The number of binary digits of the second argument, the first being fuel. -/
def bitLengthLoop : Nat → Nat → Nat
  | 0, _ => 0
  | fuel + 1, n => if n = 0 then 0 else bitLengthLoop fuel (n / 2) + 1

/-- The number of binary digits of `n`. -/
def bitLength (n : Nat) : Nat := bitLengthLoop n n

/-- The integer square root of `n` bit by bit: the first argument is the
number of bits still to decide, the third the root found so far. -/
def isqrtLoop : Nat → Nat → Nat → Nat
  | 0, _, acc => acc
  | b + 1, n, acc =>
    if (acc + 2 ^ b) * (acc + 2 ^ b) ≤ n then isqrtLoop b n (acc + 2 ^ b)
    else isqrtLoop b n acc

/-- The integer square root of `n`: the greatest `s` with `s * s ≤ n`. -/
def isqrt (n : Nat) : Nat := isqrtLoop (bitLength n / 2 + 1) n 0

/-- The exponent `e` with `2 ^ e ≤ |q| < 2 ^ (e + 1)`, for `q ≠ 0`. -/
def binaryExponent (q : ℚ) : Int :=
  let e0 : Int := (bitLength q.num.natAbs : Int) - (bitLength q.den : Int)
  if (2 : ℚ) ^ e0 ≤ |q| then e0 else e0 - 1

/-- Rounding to binary32: the nearest number with a significand of 24 bits,
ties to the even significand; `none` below the normal range (exponent less
than `-126`) and at overflow (rounded magnitude `2 ^ 128` or more). -/
def round32 (q : ℚ) : Option ℚ :=
  if q = 0 then some 0
  else
    let e := binaryExponent q
    let ulp : ℚ := 2 ^ (e - 23)
    let m : ℚ := |q| / ulp
    let f : Int := Rat.floor m
    let rem : ℚ := m - f
    let n : Int :=
      if rem < 1 / 2 then f else if rem > 1 / 2 then f + 1 else if f % 2 = 0 then f else f + 1
    let r : ℚ := n * ulp
    if e < -126 ∨ 2 ^ 128 ≤ r then none
    else some (if q < 0 then -r else r)

/-- Binary32 addition. -/
def fadd (a b : ℚ) : Option ℚ := round32 (a + b)

/-- Binary32 subtraction. -/
def fsub (a b : ℚ) : Option ℚ := round32 (a - b)

/-- Binary32 multiplication. -/
def fmul (a b : ℚ) : Option ℚ := round32 (a * b)

/-- Binary32 division. -/
def fdiv (a b : ℚ) : Option ℚ := if b = 0 then none else round32 (a / b)

/-- Binary32 square root, correctly rounded: the integer root `s` of the
argument scaled by `4 ^ k` has 31 bits, so every number strictly between `s`
and `s + 1` rounds as `s + 1 / 2` does. -/
def fsqrt (q : ℚ) : Option ℚ :=
  if q < 0 then none
  else if q = 0 then some 0
  else
    let k : Int := 30 - binaryExponent q / 2
    let scaled : ℚ := q * 4 ^ k
    let s : Nat := isqrt (Rat.floor scaled).toNat
    if ((s : ℚ) * s = scaled) then round32 (s / 2 ^ k)
    else round32 ((2 * s + 1) / 2 ^ (k + 1))

/-- The source's `Vec3::operator+` in binary32. -/
def Vec3.add32 (u v : Vec3 ℚ) : Option (Vec3 ℚ) := do
  let x ← fadd u.x v.x
  let y ← fadd u.y v.y
  let z ← fadd u.z v.z
  pure ⟨x, y, z⟩

/-- The source's `Vec3::operator-` in binary32. -/
def Vec3.sub32 (u v : Vec3 ℚ) : Option (Vec3 ℚ) := do
  let x ← fsub u.x v.x
  let y ← fsub u.y v.y
  let z ← fsub u.z v.z
  pure ⟨x, y, z⟩

/-- The source's `Vec3::operator*(float)` in binary32. -/
def Vec3.scale32 (u : Vec3 ℚ) (s : ℚ) : Option (Vec3 ℚ) := do
  let x ← fmul u.x s
  let y ← fmul u.y s
  let z ← fmul u.z s
  pure ⟨x, y, z⟩

/-- The source's `Vec3::dot` in binary32: `(x * v.x + y * v.y) + z * v.z`. -/
def Vec3.dot32 (u v : Vec3 ℚ) : Option ℚ := do
  let xx ← fmul u.x v.x
  let yy ← fmul u.y v.y
  let zz ← fmul u.z v.z
  let s ← fadd xx yy
  fadd s zz

/-- The source's `Vec3::length` in binary32. -/
def Vec3.length32 (u : Vec3 ℚ) : Option ℚ := do
  let xx ← fmul u.x u.x
  let yy ← fmul u.y u.y
  let zz ← fmul u.z u.z
  let s ← fadd xx yy
  let t ← fadd s zz
  fsqrt t

/-- The source's `Vec3::normalize` in binary32. -/
def Vec3.normalize32 (u : Vec3 ℚ) : Option (Vec3 ℚ) := do
  let l ← u.length32
  let x ← fdiv u.x l
  let y ← fdiv u.y l
  let z ← fdiv u.z l
  pure ⟨x, y, z⟩

/-- The source's `Ray::pointAt` in binary32. -/
def Ray.pointAt32 (ray : Ray ℚ) (t : ℚ) : Option (Vec3 ℚ) := do
  let s ← ray.direction.scale32 t
  ray.origin.add32 s

/-- The local `a` of `intersectSphere` in binary32. -/
def quadA32 (ray : Ray ℚ) : Option ℚ := ray.direction.dot32 ray.direction

/-- The local `b` of `intersectSphere` in binary32. -/
def quadB32 (ray : Ray ℚ) (sphere : Sphere ℚ) : Option ℚ := do
  let oc ← ray.origin.sub32 sphere.center
  let d ← oc.dot32 ray.direction
  fmul 2 d

/-- The local `c` of `intersectSphere` in binary32. -/
def quadC32 (ray : Ray ℚ) (sphere : Sphere ℚ) : Option ℚ := do
  let oc ← ray.origin.sub32 sphere.center
  let p ← oc.dot32 oc
  let rr ← fmul sphere.radius sphere.radius
  fsub p rr

/-- The local `discr` of `intersectSphere` in binary32:
`b * b - (4 * a) * c`. -/
def discriminant32 (ray : Ray ℚ) (sphere : Sphere ℚ) : Option ℚ := do
  let a ← quadA32 ray
  let b ← quadB32 ray sphere
  let c ← quadC32 ray sphere
  let bb ← fmul b b
  let fourA ← fmul 4 a
  let fourAC ← fmul fourA c
  fsub bb fourAC

/-- The value `(-b - sqrt(discr)) / (2.0f * a)` that `intersectSphere` writes
to `t`, in binary32. -/
def smallerRoot32 (ray : Ray ℚ) (sphere : Sphere ℚ) (discr : ℚ) : Option ℚ := do
  let a ← quadA32 ray
  let b ← quadB32 ray sphere
  let root ← fsqrt discr
  let num ← fsub (-b) root
  let den ← fmul 2 a
  fdiv num den

/-- The source's `intersectSphere` in binary32: `some (some t)` when it returns
`true` having written `t`, `some none` when it returns `false`, `none` when a
value leaves the normal range. -/
def intersectSphere32 (ray : Ray ℚ) (sphere : Sphere ℚ) : Option (Option ℚ) :=
  match discriminant32 ray sphere with
  | none => none
  | some discr =>
    if discr < 0 then some none
    else
      match smallerRoot32 ray sphere discr with
      | none => none
      | some t => if t > 0 then some (some t) else some none

/-- The local `normal` of `traceRay` in binary32, for the sphere `hit` found at
distance `tMin`. -/
def hitNormal32 (ray : Ray ℚ) (hit : Sphere ℚ) (tMin : ℚ) : Option (Vec3 ℚ) := do
  let hitPoint ← ray.pointAt32 tMin
  let w ← hitPoint.sub32 hit.center
  w.normalize32

/-- The value `ray.direction.dot(normal)` of `traceRay` in binary32. -/
def directionDotNormal32 (ray : Ray ℚ) (hit : Sphere ℚ) (tMin : ℚ) : Option ℚ := do
  let normal ← hitNormal32 ray hit tMin
  ray.direction.dot32 normal

/-- The local `inside` of `traceRay` in binary32. -/
def insideFlag32 (ray : Ray ℚ) (hit : Sphere ℚ) (tMin : ℚ) : Option Bool := do
  let dn ← directionDotNormal32 ray hit tMin
  pure (decide (dn > 0))

/-- A ray from the origin in direction `(-4, -3, 0)`; all its components are
binary32 numbers. -/
def tangentRay : Ray ℚ := ⟨⟨0, 0, 0⟩, ⟨-4, -3, 0⟩⟩

/-- A transparent sphere of radius `1.5` at `(-3.5, -4.5, 0)`, which the
tangent ray touches, over the reals, in the single point `(-4.4, -3.3, 0)`; all
its components are binary32 numbers. -/
def tangentSphere : Sphere ℚ :=
  ⟨⟨-7 / 2, -9 / 2, 0⟩, 3 / 2, ⟨1, 1, 1⟩, 0, 1 / 2, 3 / 2, ⟨-7 / 2, -9 / 2, 0⟩⟩

/-! ## Concrete inputs -/

/-- The ray through the centre of the image: origin `(0, 0, 0)`, direction
`(0, 0, -1)`. -/
def centerRay : Ray F := ⟨⟨0, 0, 0⟩, ⟨0, 0, -1⟩⟩

/-- The ray from the camera that points away from the scene, in direction
`(0, 0, 1)`. -/
def awayRay : Ray F := ⟨⟨0, 0, 0⟩, ⟨0, 0, 1⟩⟩

/-- The matte red sphere: the first sphere of `initialSpheres` with its
refractive index and animation anchor left open. -/
def matteRed (refractiveIndex : F) (originalCenter : Vec3 F) : Sphere F :=
  ⟨⟨0, 0, -5⟩, 1, ⟨1, 0.2, 0.2⟩, 0, 0, refractiveIndex, originalCenter⟩

/-- The scene of the single matte red sphere lit by the light at `(5, 5, -3)`
of intensity `1.5`; the light's colour and `timeValue` are left open. -/
def matteScene (refractiveIndex : F) (originalCenter lightColor : Vec3 F) (timeValue : F) :
    Scene F :=
  ⟨[matteRed refractiveIndex originalCenter], ⟨⟨5, 5, -3⟩, lightColor, 1.5⟩, timeValue⟩

/-- A ray that starts at the centre of the matte red sphere. -/
def insideRay : Ray F := ⟨⟨0, 0, -5⟩, ⟨0, 0, -1⟩⟩

/-- A small sphere on the z-axis in front of the matte red sphere. -/
def occluder : Sphere F := ⟨⟨0, 0, -3⟩, 0.5, ⟨1, 1, 1⟩, 0, 0, 1, ⟨0, 0, -3⟩⟩

/-- The matte red sphere with two occluding spheres between its nearest point
`(0, 0, -4)` and the light, which is at `(0, 0, -2)`. -/
def shadowedScene : Scene F :=
  ⟨[matteRed 1 ⟨0, 0, -5⟩, occluder, occluder], ⟨⟨0, 0, -2⟩, ⟨1, 1, 1⟩, 1.5⟩, 0⟩

end Defs

/-! ## Lemmas over an arbitrary ordered field -/

section Lemmas

variable {F : Type} [LinearOrderedField F]

@[simp]
theorem Vec3.add_def (u v : Vec3 F) :
    u + v = ⟨u.x + v.x, u.y + v.y, u.z + v.z⟩ := rfl

@[simp]
theorem Vec3.sub_def (u v : Vec3 F) :
    u - v = ⟨u.x - v.x, u.y - v.y, u.z - v.z⟩ := rfl

@[simp]
theorem Vec3.scale_def (u : Vec3 F) (s : F) :
    u * s = ⟨u.x * s, u.y * s, u.z * s⟩ := rfl

@[simp]
theorem Vec3.divide_def (u : Vec3 F) (s : F) :
    u / s = ⟨u.x / s, u.y / s, u.z / s⟩ := rfl

theorem Vec3.dot_self_nonneg (u : Vec3 F) : 0 ≤ u.dot u := by
  unfold Vec3.dot
  nlinarith [mul_self_nonneg u.x, mul_self_nonneg u.y, mul_self_nonneg u.z]

theorem Vec3.dot_self_pos (u : Vec3 F) (h : u ≠ ⟨0, 0, 0⟩) : 0 < u.dot u := by
  rcases lt_or_eq_of_le (Vec3.dot_self_nonneg u) with h1 | h1
  · exact h1
  · exfalso
    apply h
    unfold Vec3.dot at h1
    have hx : u.x = 0 := by
      nlinarith [mul_self_nonneg u.x, mul_self_nonneg u.y, mul_self_nonneg u.z]
    have hy : u.y = 0 := by
      nlinarith [mul_self_nonneg u.x, mul_self_nonneg u.y, mul_self_nonneg u.z]
    have hz : u.z = 0 := by
      nlinarith [mul_self_nonneg u.x, mul_self_nonneg u.y, mul_self_nonneg u.z]
    ext <;> assumption

/-- The source's `intersectSphere` written with the named intermediate values. -/
theorem intersectSphere_eq (sqrt : F → F) (ray : Ray F) (sphere : Sphere F) :
    intersectSphere sqrt ray sphere =
      if discriminant ray sphere < 0 then none
      else if smallerRoot sqrt ray sphere > 0 then some (smallerRoot sqrt ray sphere)
      else none :=
  rfl

theorem intersectSphere_some_iff (sqrt : F → F) (ray : Ray F) (sphere : Sphere F) (t : F) :
    intersectSphere sqrt ray sphere = some t ↔
      0 ≤ discriminant ray sphere ∧ 0 < t ∧ t = smallerRoot sqrt ray sphere := by
  rw [intersectSphere_eq]
  split_ifs with h1 h2
  · constructor
    · intro h; cases h
    · rintro ⟨h, -, -⟩; exact absurd h1 (not_lt.mpr h)
  · constructor
    · intro h
      injection h with h
      subst h
      exact ⟨not_lt.mp h1, h2, rfl⟩
    · rintro ⟨-, -, h⟩; rw [h]
  · constructor
    · intro h; cases h
    · rintro ⟨-, h3, h4⟩
      rw [h4] at h3
      exact absurd h3 h2

theorem intersectSphere_none_iff (sqrt : F → F) (ray : Ray F) (sphere : Sphere F) :
    intersectSphere sqrt ray sphere = none ↔
      discriminant ray sphere < 0 ∨ smallerRoot sqrt ray sphere ≤ 0 := by
  rw [intersectSphere_eq]
  split_ifs with h1 h2
  · simp [h1]
  · simp only [false_iff, not_or, not_lt, not_le, reduceCtorEq]
    exact ⟨not_lt.mp h1, h2⟩
  · simp only [true_iff]
    exact Or.inr (not_lt.mp h2)

/-- A number `t` with `2 a t = -b - s`, where `s * s` is the discriminant,
solves `a t^2 + b t + c = 0` up to the factor `4 a`. -/
theorem quadratic_root (a b c s t : F)
    (h2 : t * (2 * a) = -b - s) (hs : s * s = b * b - 4 * a * c) :
    4 * a * (a * t * t + b * t + c) = 0 := by
  linear_combination (t * (2 * a) + b - s) * h2 + hs

/-- The squared distance of `pointAt t` from the centre, as a quadratic in `t`. -/
theorem pointAt_dist_sq (ray : Ray F) (sphere : Sphere F) (t : F) :
    (ray.pointAt t - sphere.center).dot (ray.pointAt t - sphere.center) =
      quadA ray * t * t + quadB ray sphere * t + quadC ray sphere +
        sphere.radius * sphere.radius := by
  simp only [quadA, quadB, quadC, Ray.pointAt, Vec3.dot, Vec3.add_def, Vec3.sub_def,
    Vec3.scale_def]
  ring

theorem nearestLoop_none_of_all_miss (sqrt : F → F) (ray : Ray F) (spheres : List (Sphere F))
    (i : Nat) (hmiss : ∀ s ∈ spheres, intersectSphere sqrt ray s = none) :
    nearestLoop sqrt ray spheres i none = none := by
  induction spheres generalizing i with
  | nil => rfl
  | cons s rest ih =>
    have hs : intersectSphere sqrt ray s = none := hmiss s (List.mem_cons_self s rest)
    rw [nearestLoop, nearestStep, hs]
    exact ih (i + 1) (fun s2 h2 => hmiss s2 (List.mem_cons_of_mem s h2))

theorem shadowLoop_all_miss (sqrt : F → F) (ray : Ray F) (spheres : List (Sphere F)) (d : F)
    (hmiss : ∀ s ∈ spheres, intersectSphere sqrt ray s = none) :
    shadowLoop sqrt ray spheres d = d := by
  induction spheres with
  | nil => rfl
  | cons s rest ih =>
    have hs : intersectSphere sqrt ray s = none := hmiss s (List.mem_cons_self s rest)
    rw [shadowLoop, hs]
    simpa using ih (fun s2 h2 => hmiss s2 (List.mem_cons_of_mem s h2))

theorem shadowLoop_some_hit (sqrt : F → F) (ray : Ray F) (spheres : List (Sphere F)) (d : F)
    (hhit : ∃ s ∈ spheres, (intersectSphere sqrt ray s).isSome = true) :
    shadowLoop sqrt ray spheres d = d * 0.2 := by
  induction spheres with
  | nil => obtain ⟨s, hs, -⟩ := hhit; cases hs
  | cons s rest ih =>
    rw [shadowLoop]
    split_ifs with h
    · rfl
    · apply ih
      obtain ⟨s2, hs2, h2⟩ := hhit
      rcases List.mem_cons.mp hs2 with rfl | hmem
      · exact absurd h2 h
      · exact ⟨s2, hmem, h2⟩

theorem computeLighting_eq (sqrt : F → F) (sc : Scene F) (point normal color : Vec3 F) :
    computeLighting sqrt sc point normal color =
      color * shadowLoop sqrt (shadowRay sqrt sc point normal) sc.spheres
        (diffuseTerm sqrt sc point normal) :=
  rfl

theorem getElem?_append_singleton {α : Type} (pre : List α) (a b : α) (j : Nat) :
    (pre ++ [a])[j]? = some b ↔ pre[j]? = some b ∨ (j = pre.length ∧ b = a) := by
  rcases Nat.lt_or_ge j pre.length with h | h
  · rw [List.getElem?_append_left h]
    constructor
    · exact Or.inl
    · rintro (h1 | ⟨h1, -⟩)
      · exact h1
      · omega
  · rw [List.getElem?_append_right h]
    have hnone : pre[j]? = none := List.getElem?_eq_none h
    rw [hnone]
    rcases Nat.eq_or_lt_of_le h with h1 | h1
    · subst h1
      simp [eq_comm]
    · have h2 : [a][j - pre.length]? = none := by
        apply List.getElem?_eq_none
        simp only [List.length_singleton]
        omega
      rw [h2]
      constructor
      · intro h3; cases h3
      · rintro (h3 | ⟨h3, -⟩)
        · cases h3
        · omega

theorem getElem?_lt_length {α : Type} (l : List α) (a : α) (j : Nat) (h : l[j]? = some a) :
    j < l.length := by
  by_contra hc
  rw [List.getElem?_eq_none (not_lt.mp hc)] at h
  cases h

/-- One iteration of the nearest-hit loop keeps the recorded state correct for
the spheres visited so far. -/
theorem isNearest_step (sqrt : F → F) (ray : Ray F) (pre : List (Sphere F)) (s : Sphere F)
    (st : Option (F × Nat × Sphere F)) (h : IsNearest sqrt ray pre st) :
    IsNearest sqrt ray (pre ++ [s]) (nearestStep sqrt ray s pre.length st) := by
  unfold nearestStep
  cases hs : intersectSphere sqrt ray s with
  | none =>
    simp only []
    match st, h with
    | none, h =>
      intro s2 hs2
      rcases List.mem_append.mp hs2 with h2 | h2
      · exact h s2 h2
      · rw [List.mem_singleton.mp h2]; exact hs
    | some (tMin, j0, hit), ⟨h1, h2, h3⟩ =>
      refine ⟨(getElem?_append_singleton pre s hit j0).mpr (Or.inl h1), h2, ?_⟩
      intro j s2 t2 hj ht2
      rcases (getElem?_append_singleton pre s s2 j).mp hj with h4 | ⟨-, h4⟩
      · exact h3 j s2 t2 h4 ht2
      · rw [h4, hs] at ht2; cases ht2
  | some t =>
    simp only []
    match st, h with
    | none, h =>
      refine ⟨(getElem?_append_singleton pre s s pre.length).mpr (Or.inr ⟨rfl, rfl⟩), hs, ?_⟩
      intro j s2 t2 hj ht2
      rcases (getElem?_append_singleton pre s s2 j).mp hj with h4 | ⟨h4, h5⟩
      · have := h s2 (List.getElem?_mem h4)
        rw [this] at ht2; cases ht2
      · rw [h5, hs] at ht2
        injection ht2 with ht2
        subst ht2
        exact ⟨le_refl _, fun _ => le_of_eq h4.symm⟩
    | some (tMin, j0, hit), ⟨h1, h2, h3⟩ =>
      simp only []
      split_ifs with hlt
      · refine ⟨(getElem?_append_singleton pre s s pre.length).mpr (Or.inr ⟨rfl, rfl⟩), hs, ?_⟩
        intro j s2 t2 hj ht2
        rcases (getElem?_append_singleton pre s s2 j).mp hj with h4 | ⟨h4, h5⟩
        · have h6 := (h3 j s2 t2 h4 ht2).1
          exact ⟨le_of_lt (lt_of_lt_of_le hlt h6),
            fun h7 => absurd (lt_of_lt_of_le hlt h6) (by rw [h7]; exact lt_irrefl _)⟩
        · rw [h5, hs] at ht2
          injection ht2 with ht2
          subst ht2
          exact ⟨le_refl _, fun _ => le_of_eq h4.symm⟩
      · refine ⟨(getElem?_append_singleton pre s hit j0).mpr (Or.inl h1), h2, ?_⟩
        intro j s2 t2 hj ht2
        rcases (getElem?_append_singleton pre s s2 j).mp hj with h4 | ⟨h4, h5⟩
        · exact h3 j s2 t2 h4 ht2
        · rw [h5, hs] at ht2
          injection ht2 with ht2
          subst ht2
          refine ⟨not_lt.mp hlt, fun _ => ?_⟩
          rw [h4]
          exact le_of_lt (getElem?_lt_length pre hit j0 h1)

theorem nearestLoop_isNearest (sqrt : F → F) (ray : Ray F) (rest pre : List (Sphere F))
    (st : Option (F × Nat × Sphere F)) (h : IsNearest sqrt ray pre st) :
    IsNearest sqrt ray (pre ++ rest) (nearestLoop sqrt ray rest pre.length st) := by
  induction rest generalizing pre st with
  | nil => simpa [nearestLoop] using h
  | cons s rest ih =>
    have hstep := isNearest_step sqrt ray pre s st h
    have hlen : (pre ++ [s]).length = pre.length + 1 := by simp
    have happ : pre ++ s :: rest = (pre ++ [s]) ++ rest := by simp
    rw [happ, nearestLoop, ← hlen]
    exact ih _ _ hstep

theorem nearestHit_isNearest (sqrt : F → F) (ray : Ray F) (spheres : List (Sphere F)) :
    IsNearest sqrt ray spheres (nearestHit sqrt ray spheres) := by
  have h0 : IsNearest sqrt ray [] none := by
    intro s hs; cases hs
  simpa [nearestHit] using nearestLoop_isNearest sqrt ray spheres [] none h0

theorem updateSpheres_length (sin cos : F → F) (e : F) (k : Nat) (l : List (Sphere F)) :
    (updateSpheres sin cos e k l).length = l.length := by
  induction l generalizing k with
  | nil => rfl
  | cons s rest ih => simp [updateSpheres, ih]

theorem updateSpheres_getElem? (sin cos : F → F) (e : F) (k : Nat) (l : List (Sphere F))
    (i : Nat) (s : Sphere F) (h : l[i]? = some s) :
    (updateSpheres sin cos e k l)[i]? = some (updateSphere sin cos e (k + i) s) := by
  induction l generalizing k i with
  | nil => simp at h
  | cons a rest ih =>
    cases i with
    | zero =>
      simp only [List.getElem?_cons_zero, Option.some.injEq] at h
      subst h
      simp [updateSpheres]
    | succ i =>
      simp only [List.getElem?_cons_succ] at h
      simp only [updateSpheres, List.getElem?_cons_succ]
      rw [ih (k + 1) i h]
      congr 2
      omega

theorem updateSphere_updateSphere (sin cos : F → F) (e e2 : F) (i : Nat) (s : Sphere F) :
    updateSphere sin cos e i (updateSphere sin cos e2 i s) = updateSphere sin cos e i s :=
  rfl

theorem updateSpheres_updateSpheres (sin cos : F → F) (e e2 : F) (k : Nat)
    (l : List (Sphere F)) :
    updateSpheres sin cos e k (updateSpheres sin cos e2 k l) = updateSpheres sin cos e k l := by
  induction l generalizing k with
  | nil => rfl
  | cons s rest ih =>
    simp only [updateSpheres, ih, updateSphere_updateSphere]

theorem mem_updateSpheres (sin cos : F → F) (e : F) (k : Nat) (l : List (Sphere F))
    (s : Sphere F) (h : s ∈ updateSpheres sin cos e k l) :
    ∃ (i : Nat) (s0 : Sphere F), s = updateSphere sin cos e i s0 := by
  induction l generalizing k with
  | nil => cases h
  | cons a rest ih =>
    rcases List.mem_cons.mp h with h1 | h1
    · exact ⟨k, a, h1⟩
    · exact ih (k + 1) h1

/-- The source's `traceRay` in terms of its named intermediate values. -/
theorem traceRay_unfold (sqrt : F → F) (sc : Scene F) (ray : Ray F) (depth : Int) :
    traceRay sqrt sc ray depth =
      if depth > 5 then ⟨0, 0, 0⟩
      else
        match nearestHit sqrt ray sc.spheres with
        | none => ⟨0.1, 0.1, 0.1⟩
        | some (tMin, _, hit) =>
          shade sqrt sc ray hit tMin
            (traceRay sqrt sc (reflectRay sqrt ray hit tMin) (depth + 1))
            (match refract sqrt ray.direction (refractNorm sqrt ray hit tMin)
                (refractN1 sqrt ray hit tMin) (refractN2 sqrt ray hit tMin) with
              | some refractDir =>
                traceRay sqrt sc (refractRay sqrt ray hit tMin refractDir) (depth + 1)
              | none => ⟨0, 0, 0⟩) := by
  rw [traceRay]
  split_ifs with h
  · rfl
  · cases hn : nearestHit sqrt ray sc.spheres with
    | none => rfl
    | some p =>
      obtain ⟨tMin, i, hit⟩ := p
      simp only [shade]
      by_cases h1 : hit.reflectivity > 0 ∨ hit.transparency > 0
      · simp only [if_pos h1]
        by_cases h2 : hit.transparency > 0
        · simp only [if_pos h2]
          rfl
        · simp only [if_neg h2]
          rfl
      · simp only [if_neg h1]
        rfl

/-- The sphere recorded by the nearest-hit scan is reported as hit at the
recorded distance. -/
theorem nearestHit_some_hit (sqrt : F → F) (ray : Ray F) (spheres : List (Sphere F))
    (tMin : F) (i : Nat) (hit : Sphere F)
    (h : nearestHit sqrt ray spheres = some (tMin, i, hit)) :
    hit ∈ spheres ∧ intersectSphere sqrt ray hit = some tMin := by
  have hn := nearestHit_isNearest sqrt ray spheres
  rw [h] at hn
  exact ⟨List.getElem?_mem hn.1, hn.2.1⟩

/-- The colour `shade` of a sphere that is neither reflective nor transparent
does not depend on the colours of the recursive calls. -/
theorem shade_matte (sqrt : F → F) (sc : Scene F) (ray : Ray F) (hit : Sphere F) (tMin : F)
    (a b c d : Vec3 F) (h : ¬ (hit.reflectivity > 0 ∨ hit.transparency > 0)) :
    shade sqrt sc ray hit tMin a b = shade sqrt sc ray hit tMin c d := by
  simp only [shade, if_neg h]

/-- The colour `shade` of a sphere that is not transparent does not depend on
the colour of the refraction call. -/
theorem shade_nontransparent (sqrt : F → F) (sc : Scene F) (ray : Ray F) (hit : Sphere F) (tMin : F)
    (a b c : Vec3 F) (h : ¬ hit.transparency > 0) :
    shade sqrt sc ray hit tMin a b = shade sqrt sc ray hit tMin a c := by
  simp only [shade, if_neg h]

theorem traceRayFuel_eq (sqrt : F → F) (sc : Scene F) (fuel : Nat) :
    ∀ (ray : Ray F) (depth : Int), 1 ≤ fuel → (7 - depth).toNat ≤ fuel →
      traceRayFuel sqrt sc fuel ray depth = some (traceRay sqrt sc ray depth) := by
  induction fuel with
  | zero => intro ray depth h; omega
  | succ fuel ih =>
    intro ray depth _ hfuel
    rw [traceRayFuel, traceRay_unfold]
    by_cases hd : depth > 5
    · simp only [if_pos hd]
    · simp only [if_neg hd]
      have h1 : 1 ≤ fuel := by omega
      have h2 : (7 - (depth + 1)).toNat ≤ fuel := by omega
      cases hn : nearestHit sqrt ray sc.spheres with
      | none => rfl
      | some p =>
        obtain ⟨tMin, i, hit⟩ := p
        simp only [ih _ _ h1 h2]
        by_cases hr : hit.reflectivity > 0 ∨ hit.transparency > 0
        · simp only [if_pos hr]
          by_cases ht : hit.transparency > 0
          · simp only [if_pos ht]
            cases hrf : refract sqrt ray.direction (refractNorm sqrt ray hit tMin)
              (refractN1 sqrt ray hit tMin) (refractN2 sqrt ray hit tMin) with
            | none => rfl
            | some dir => simp only [ih _ _ h1 h2]
          · simp only [if_neg ht]
            rw [shade_nontransparent sqrt sc ray hit tMin _ _ _ ht]
        · simp only [if_neg hr]
          rw [shade_matte sqrt sc ray hit tMin _ _ _ _ hr]

theorem intersectSphere_congr (sqrt : F → F) (ray : Ray F) (s1 s2 : Sphere F)
    (h : Sphere.SameButReflectivity s1 s2) :
    intersectSphere sqrt ray s1 = intersectSphere sqrt ray s2 := by
  obtain ⟨hc, hr, -⟩ := h
  simp only [intersectSphere, hc, hr]

theorem shadowLoop_congr (sqrt : F → F) (ray : Ray F) (l1 l2 : List (Sphere F)) (d : F)
    (h : List.Forall₂ Sphere.SameButReflectivity l1 l2) :
    shadowLoop sqrt ray l1 d = shadowLoop sqrt ray l2 d := by
  induction h with
  | nil => rfl
  | cons hs _ ih =>
    simp only [shadowLoop, intersectSphere_congr sqrt ray _ _ hs, ih]

theorem computeLighting_congr (sqrt : F → F) (sc1 sc2 : Scene F) (point normal color : Vec3 F)
    (h : Scene.SameButReflectivity sc1 sc2) :
    computeLighting sqrt sc1 point normal color = computeLighting sqrt sc2 point normal color := by
  obtain ⟨hs, hl, -⟩ := h
  simp only [computeLighting, hl, shadowLoop_congr sqrt _ _ _ _ hs]

theorem nearestStep_congr (sqrt : F → F) (ray : Ray F) (s1 s2 : Sphere F) (i : Nat)
    (st1 st2 : Option (F × Nat × Sphere F)) (hs : Sphere.SameButReflectivity s1 s2)
    (hst : SameHit st1 st2) :
    SameHit (nearestStep sqrt ray s1 i st1) (nearestStep sqrt ray s2 i st2) := by
  unfold nearestStep
  rw [intersectSphere_congr sqrt ray s1 s2 hs]
  cases intersectSphere sqrt ray s2 with
  | none => exact hst
  | some t =>
    match st1, st2, hst with
    | none, none, _ => exact ⟨rfl, rfl, hs⟩
    | some (t1, i1, a1), some (t2, i2, a2), ⟨ht, hi, ha⟩ =>
      simp only []
      subst ht
      by_cases hlt : t < t1
      · simp only [if_pos hlt]
        exact ⟨rfl, rfl, hs⟩
      · simp only [if_neg hlt]
        exact ⟨rfl, hi, ha⟩

theorem nearestLoop_congr (sqrt : F → F) (ray : Ray F) (l1 l2 : List (Sphere F))
    (h : List.Forall₂ Sphere.SameButReflectivity l1 l2) :
    ∀ (i : Nat) (st1 st2 : Option (F × Nat × Sphere F)), SameHit st1 st2 →
      SameHit (nearestLoop sqrt ray l1 i st1) (nearestLoop sqrt ray l2 i st2) := by
  induction h with
  | nil => intro i st1 st2 hst; exact hst
  | cons hs _ ih =>
    intro i st1 st2 hst
    simp only [nearestLoop]
    exact ih (i + 1) _ _ (nearestStep_congr sqrt ray _ _ i st1 st2 hs hst)

theorem nearestHit_congr (sqrt : F → F) (ray : Ray F) (sc1 sc2 : Scene F)
    (h : Scene.SameButReflectivity sc1 sc2) :
    SameHit (nearestHit sqrt ray sc1.spheres) (nearestHit sqrt ray sc2.spheres) :=
  nearestLoop_congr sqrt ray _ _ h.1 0 none none trivial

theorem shade_congr (sqrt : F → F) (sc1 sc2 : Scene F) (ray : Ray F) (s1 s2 : Sphere F)
    (tMin : F) (a b : Vec3 F) (h : Scene.SameButReflectivity sc1 sc2)
    (hs : Sphere.SameButReflectivity s1 s2) :
    shade sqrt sc1 ray s1 tMin a b = shade sqrt sc2 ray s2 tMin a b := by
  obtain ⟨hc, hr, hcol, ht, hri, ho, hre⟩ := hs
  have hn : hitNormal sqrt ray s1 tMin = hitNormal sqrt ray s2 tMin := by
    simp only [hitNormal, hc]
  simp only [shade, hn, hcol, ht, computeLighting_congr sqrt sc1 sc2 _ _ _ h]
  rcases hre with hre | hpos
  · rw [hre]
  · rw [ht] at hpos
    have h1 : s1.reflectivity > 0 ∨ s2.transparency > 0 := Or.inr hpos
    have h2 : s2.reflectivity > 0 ∨ s2.transparency > 0 := Or.inr hpos
    simp only [if_pos h1, if_pos h2, if_pos hpos]

theorem traceRay_congr_aux (sqrt : F → F) (sc1 sc2 : Scene F)
    (h : Scene.SameButReflectivity sc1 sc2) (n : Nat) :
    ∀ (ray : Ray F) (depth : Int), (6 - depth).toNat ≤ n →
      traceRay sqrt sc1 ray depth = traceRay sqrt sc2 ray depth := by
  induction n with
  | zero =>
    intro ray depth hn
    have hd : depth > 5 := by omega
    rw [traceRay, traceRay, if_pos hd, if_pos hd]
  | succ n ih =>
    intro ray depth hn
    rw [traceRay_unfold sqrt sc1, traceRay_unfold sqrt sc2]
    by_cases hd : depth > 5
    · simp only [if_pos hd]
    · simp only [if_neg hd]
      have hrec : ∀ r : Ray F, traceRay sqrt sc1 r (depth + 1) = traceRay sqrt sc2 r (depth + 1) :=
        fun r => ih r (depth + 1) (by omega)
      have hhit := nearestHit_congr sqrt ray sc1 sc2 h
      match h1 : nearestHit sqrt ray sc1.spheres, h2 : nearestHit sqrt ray sc2.spheres, hhit with
      | none, none, _ => rfl
      | some (t1, i1, a1), some (t2, i2, a2), ⟨ht, _, ha⟩ =>
        simp only []
        subst ht
        obtain ⟨hc, hr, hcol, htr, hri, ho, hre⟩ := ha
        have hn : hitNormal sqrt ray a1 t1 = hitNormal sqrt ray a2 t1 := by
          simp only [hitNormal, hc]
        have e1 : reflectRay sqrt ray a1 t1 = reflectRay sqrt ray a2 t1 := by
          simp only [reflectRay, hn]
        have e2 : insideFlag sqrt ray a1 t1 = insideFlag sqrt ray a2 t1 := by
          simp only [insideFlag, hn]
        have e3 : refractNorm sqrt ray a1 t1 = refractNorm sqrt ray a2 t1 := by
          simp only [refractNorm, hn, e2]
        have e4 : refractN1 sqrt ray a1 t1 = refractN1 sqrt ray a2 t1 := by
          simp only [refractN1, e2, hri]
        have e5 : refractN2 sqrt ray a1 t1 = refractN2 sqrt ray a2 t1 := by
          simp only [refractN2, e2, hri]
        have e6 : ∀ dir, refractRay sqrt ray a1 t1 dir = refractRay sqrt ray a2 t1 dir := by
          intro dir
          simp only [refractRay, e3]
        rw [e1, e3, e4, e5, hrec]
        rw [shade_congr sqrt sc1 sc2 ray a1 a2 t1 _ _ h ⟨hc, hr, hcol, htr, hri, ho, hre⟩]
        congr 1
        cases refract sqrt ray.direction (refractNorm sqrt ray a2 t1) (refractN1 sqrt ray a2 t1)
          (refractN2 sqrt ray a2 t1) with
        | none => rfl
        | some dir => simp only [e6, hrec]

/-- The colour returned by `traceRay` at a transparent sphere. -/
theorem traceRay_transparent (sqrt : F → F) (sc : Scene F) (ray : Ray F) (depth : Int)
    (tMin : F) (i : Nat) (hit : Sphere F) (hd : depth ≤ 5)
    (hn : nearestHit sqrt ray sc.spheres = some (tMin, i, hit))
    (ht : hit.transparency > 0) :
    traceRay sqrt sc ray depth =
      computeLighting sqrt sc (ray.pointAt tMin) (hitNormal sqrt ray hit tMin) hit.color *
          (1 - hit.transparency) +
        (traceRay sqrt sc (reflectRay sqrt ray hit tMin) (depth + 1) *
            fresnel ray.direction (hitNormal sqrt ray hit tMin) +
          (match refract sqrt ray.direction (refractNorm sqrt ray hit tMin)
              (refractN1 sqrt ray hit tMin) (refractN2 sqrt ray hit tMin) with
            | some refractDir =>
              traceRay sqrt sc (refractRay sqrt ray hit tMin refractDir) (depth + 1)
            | none => ⟨0, 0, 0⟩) *
            (1 - fresnel ray.direction (hitNormal sqrt ray hit tMin))) * hit.transparency := by
  rw [traceRay_unfold, if_neg (not_lt.mpr hd), hn]
  simp only [shade, if_pos (Or.inr ht : hit.reflectivity > 0 ∨ hit.transparency > 0),
    if_pos ht]

theorem shadowLoop_nonneg (sqrt : F → F) (ray : Ray F) (l : List (Sphere F)) (d : F)
    (hd : 0 ≤ d) : 0 ≤ shadowLoop sqrt ray l d := by
  induction l with
  | nil => exact hd
  | cons s rest ih =>
    rw [shadowLoop]
    split_ifs
    · exact mul_nonneg hd (by norm_num)
    · exact ih

theorem Vec3.Nonneg.scale {v : Vec3 F} (hv : v.Nonneg) {s : F} (hs : 0 ≤ s) :
    (v * s).Nonneg :=
  ⟨mul_nonneg hv.1 hs, mul_nonneg hv.2.1 hs, mul_nonneg hv.2.2 hs⟩

theorem Vec3.Nonneg.add {u v : Vec3 F} (hu : u.Nonneg) (hv : v.Nonneg) : (u + v).Nonneg :=
  ⟨add_nonneg hu.1 hv.1, add_nonneg hu.2.1 hv.2.1, add_nonneg hu.2.2 hv.2.2⟩

theorem computeLighting_nonneg (sqrt : F → F) (sc : Scene F) (point normal color : Vec3 F)
    (hI : 0 ≤ sc.light.intensity) (hc : color.Nonneg) :
    (computeLighting sqrt sc point normal color).Nonneg := by
  rw [computeLighting_eq]
  apply Vec3.Nonneg.scale hc
  apply shadowLoop_nonneg
  exact mul_nonneg (le_max_left _ _) hI

/-- The colour `shade` is non-negative when the colours of the recursive calls
are, the sphere is in range and the Fresnel weight lies in `[0, 1]`. -/
theorem shade_nonneg (sqrt : F → F) (sc : Scene F) (ray : Ray F) (hit : Sphere F) (tMin : F)
    (a b : Vec3 F) (hI : 0 ≤ sc.light.intensity) (hs : hit.InRange)
    (hf0 : 0 ≤ fresnel ray.direction (hitNormal sqrt ray hit tMin))
    (hf1 : fresnel ray.direction (hitNormal sqrt ray hit tMin) ≤ 1)
    (ha : a.Nonneg) (hb : b.Nonneg) : (shade sqrt sc ray hit tMin a b).Nonneg := by
  obtain ⟨-, hx, hy, hz, hre, htr, -⟩ := hs
  have hc : (computeLighting sqrt sc (ray.pointAt tMin) (hitNormal sqrt ray hit tMin)
      hit.color).Nonneg :=
    computeLighting_nonneg sqrt sc _ _ _ hI ⟨hx.1, hy.1, hz.1⟩
  simp only [shade]
  split_ifs
  · exact (hc.scale (by linarith [htr.2])).add
      (((ha.scale hf0).add (hb.scale (by linarith))).scale htr.1)
  · exact (hc.scale (by linarith [hre.2])).add (ha.scale hre.1)
  · exact hc

end Lemmas

/-! ## Lemmas over the real numbers -/

theorem Vec3.length_sq (u : Vec3 ℝ) : (u.length Real.sqrt) ^ 2 = u.dot u := by
  unfold Vec3.length Vec3.dot
  exact Real.sq_sqrt
    (by nlinarith [mul_self_nonneg u.x, mul_self_nonneg u.y, mul_self_nonneg u.z])

theorem Vec3.dot_self_of_length_one (u : Vec3 ℝ) (h : u.length Real.sqrt = 1) :
    u.dot u = 1 := by
  rw [← Vec3.length_sq, h]; norm_num

/-- A ray that does not point towards the centre of a sphere (`b ≥ 0`) is
reported as missing it. -/
theorem intersectSphere_none_of_quadB_nonneg (ray : Ray ℝ) (sphere : Sphere ℝ)
    (hb : 0 ≤ quadB ray sphere) : intersectSphere Real.sqrt ray sphere = none := by
  rw [intersectSphere_none_iff]
  right
  unfold smallerRoot
  apply div_nonpos_of_nonpos_of_nonneg
  · have := Real.sqrt_nonneg (discriminant ray sphere)
    linarith
  · have := Vec3.dot_self_nonneg ray.direction
    unfold quadA
    linarith

theorem sqrt_four : Real.sqrt 4 = 2 := by
  rw [show (4 : ℝ) = 2 ^ 2 by norm_num]
  exact Real.sqrt_sq (by norm_num)

theorem centerRay_hits_matteRed (ri : ℝ) (oc : Vec3 ℝ) :
    intersectSphere Real.sqrt centerRay (matteRed ri oc) = some 4 := by
  have hD : discriminant (centerRay : Ray ℝ) (matteRed ri oc) = 4 := by
    simp [discriminant, quadA, quadB, quadC, centerRay, matteRed, Vec3.dot]
    norm_num
  rw [intersectSphere_some_iff]
  refine ⟨by rw [hD]; norm_num, by norm_num, ?_⟩
  rw [smallerRoot, hD, sqrt_four]
  simp [quadA, quadB, centerRay, matteRed, Vec3.dot]
  norm_num

theorem awayRay_misses_initialSpheres :
    ∀ s ∈ (initialScene : Scene ℝ).spheres, intersectSphere Real.sqrt awayRay s = none := by
  intro s hs
  simp only [initialScene, initialSpheres, List.mem_cons, List.mem_singleton,
    List.not_mem_nil, or_false] at hs
  apply intersectSphere_none_of_quadB_nonneg
  rcases hs with rfl | rfl | rfl <;>
    · simp [quadB, awayRay, Vec3.dot]

theorem lightDir_shadowedScene :
    lightDir Real.sqrt (shadowedScene : Scene ℝ) ⟨0, 0, -4⟩ = ⟨0, 0, 1⟩ := by
  have h4 : (-2 + 4 : ℝ) * (-2 + 4) = 4 := by norm_num
  simp [lightDir, shadowedScene, Vec3.normalize, Vec3.length, h4, sqrt_four]
  norm_num

theorem shadowRay_hits_occluder :
    intersectSphere Real.sqrt
      (shadowRay Real.sqrt (shadowedScene : Scene ℝ) ⟨0, 0, -4⟩ ⟨0, 0, 1⟩) occluder =
        some 0.499 := by
  rw [shadowRay, lightDir_shadowedScene]
  have hD : discriminant (⟨(⟨0, 0, -4⟩ : Vec3 ℝ) + (⟨0, 0, 1⟩ : Vec3 ℝ) * (0.001 : ℝ),
      ⟨0, 0, 1⟩⟩ : Ray ℝ) occluder = 1 := by
    simp [discriminant, quadA, quadB, quadC, occluder, Vec3.dot]
    norm_num
  rw [intersectSphere_some_iff]
  refine ⟨by rw [hD]; norm_num, by norm_num, ?_⟩
  rw [smallerRoot, hD, Real.sqrt_one]
  simp [quadA, quadB, occluder, Vec3.dot]
  norm_num

theorem nearestHit_matteScene (ri : ℝ) (oc lc : Vec3 ℝ) (tv : ℝ) :
    nearestHit Real.sqrt centerRay (matteScene ri oc lc tv).spheres =
      some (4, 0, matteRed ri oc) := by
  simp only [nearestHit, matteScene, nearestLoop, nearestStep, centerRay_hits_matteRed]

theorem normal_matteRed (ri : ℝ) (oc : Vec3 ℝ) :
    ((centerRay : Ray ℝ).pointAt 4 - (matteRed ri oc).center).normalize Real.sqrt =
      ⟨0, 0, 1⟩ := by
  simp [Ray.pointAt, centerRay, matteRed, Vec3.normalize, Vec3.length]
  norm_num

theorem lightDir_matteScene (ri : ℝ) (oc lc : Vec3 ℝ) (tv : ℝ) :
    lightDir Real.sqrt (matteScene ri oc lc tv) ((centerRay : Ray ℝ).pointAt 4) =
      ⟨5 / Real.sqrt 51, 5 / Real.sqrt 51, 1 / Real.sqrt 51⟩ := by
  have h51 : (5 : ℝ) * 5 + 5 * 5 + (-3 + 4) * (-3 + 4) = 51 := by norm_num
  simp [lightDir, Ray.pointAt, centerRay, matteScene, Vec3.normalize, Vec3.length, h51]
  norm_num

theorem shadow_miss_matteScene (ri : ℝ) (oc lc : Vec3 ℝ) (tv : ℝ) :
    intersectSphere Real.sqrt
      (shadowRay Real.sqrt (matteScene ri oc lc tv) ((centerRay : Ray ℝ).pointAt 4) ⟨0, 0, 1⟩)
      (matteRed ri oc) = none := by
  apply intersectSphere_none_of_quadB_nonneg
  rw [quadB, shadowRay, lightDir_matteScene]
  have hs : 0 ≤ Real.sqrt 51 := Real.sqrt_nonneg 51
  simp [Ray.pointAt, centerRay, matteRed, Vec3.dot]
  norm_num

theorem abs_dot_le_one (d n : Vec3 ℝ) (hd : d.length Real.sqrt = 1)
    (hn : n.length Real.sqrt = 1) : |d.dot n| ≤ 1 := by
  have h1 := Vec3.dot_self_of_length_one d hd
  have h2 := Vec3.dot_self_of_length_one n hn
  rw [abs_le]
  unfold Vec3.dot at *
  constructor
  · nlinarith [sq_nonneg (d.x + n.x), sq_nonneg (d.y + n.y), sq_nonneg (d.z + n.z)]
  · nlinarith [sq_nonneg (d.x - n.x), sq_nonneg (d.y - n.y), sq_nonneg (d.z - n.z)]

theorem fresnel_bounds (d n : Vec3 ℝ) (h : |d.dot n| ≤ 1) :
    0.1 ≤ fresnel d n ∧ fresnel d n ≤ 1 := by
  have h0 : 0 ≤ 1 - |d.dot n| := by linarith
  have h1 : 1 - |d.dot n| ≤ 1 := by linarith [abs_nonneg (d.dot n)]
  have h2 : 0 ≤ (1 - |d.dot n|) ^ 5 := pow_nonneg h0 5
  have h3 : (1 - |d.dot n|) ^ 5 ≤ 1 := pow_le_one₀ h0 h1
  unfold fresnel
  constructor <;> norm_num <;> nlinarith

/-- At a reported hit the ray direction and the vector from the centre to the
hit point make an angle of at least ninety degrees. -/
theorem hit_direction_dot_nonpos (ray : Ray ℝ) (sphere : Sphere ℝ) (t : ℝ)
    (hdir : ray.direction ≠ ⟨0, 0, 0⟩)
    (hhit : intersectSphere Real.sqrt ray sphere = some t) :
    ray.direction.dot (ray.pointAt t - sphere.center) ≤ 0 := by
  obtain ⟨hD, ht, hEq⟩ := (intersectSphere_some_iff Real.sqrt ray sphere t).mp hhit
  have ha : 0 < quadA ray := Vec3.dot_self_pos _ hdir
  have h2 : t * (2 * quadA ray) =
      -quadB ray sphere - Real.sqrt (discriminant ray sphere) := by
    rw [hEq, smallerRoot]; field_simp
  have hs := Real.sqrt_nonneg (discriminant ray sphere)
  have e : ray.direction.dot (ray.pointAt t - sphere.center) =
      quadB ray sphere / 2 + t * quadA ray := by
    simp only [quadA, quadB, Ray.pointAt, Vec3.dot, Vec3.add_def, Vec3.sub_def,
      Vec3.scale_def]
    ring
  rw [e]
  linarith

/-- At a reported hit the hit point is on the sphere. -/
theorem hit_dist_sq (ray : Ray ℝ) (sphere : Sphere ℝ) (t : ℝ)
    (hdir : ray.direction ≠ ⟨0, 0, 0⟩)
    (hhit : intersectSphere Real.sqrt ray sphere = some t) :
    ((ray.pointAt t - sphere.center).length Real.sqrt) ^ 2 = sphere.radius ^ 2 := by
  obtain ⟨hD, ht, hEq⟩ := (intersectSphere_some_iff Real.sqrt ray sphere t).mp hhit
  rw [Vec3.length_sq, pointAt_dist_sq]
  have ha : 0 < quadA ray := Vec3.dot_self_pos _ hdir
  have hs : Real.sqrt (discriminant ray sphere) * Real.sqrt (discriminant ray sphere) =
      quadB ray sphere * quadB ray sphere - 4 * quadA ray * quadC ray sphere :=
    Real.mul_self_sqrt hD
  have h2 : t * (2 * quadA ray) =
      -quadB ray sphere - Real.sqrt (discriminant ray sphere) := by
    rw [hEq, smallerRoot]; field_simp
  have key := quadratic_root _ _ _ _ _ h2 hs
  have h4 : (4 : ℝ) * quadA ray ≠ 0 := by positivity
  have := (mul_eq_zero.mp key).resolve_left h4
  rw [sq]
  linarith

/-- At a reported hit on a sphere of positive radius the hit point is at
distance `radius` from the centre. -/
theorem hit_length_eq_radius (ray : Ray ℝ) (sphere : Sphere ℝ) (t : ℝ)
    (hdir : ray.direction ≠ ⟨0, 0, 0⟩) (hr : 0 < sphere.radius)
    (hhit : intersectSphere Real.sqrt ray sphere = some t) :
    (ray.pointAt t - sphere.center).length Real.sqrt = sphere.radius := by
  have h := (hit_dist_sq ray sphere t hdir hhit)
  have hl : 0 ≤ (ray.pointAt t - sphere.center).length Real.sqrt := Real.sqrt_nonneg _
  nlinarith

theorem Vec3.length_eq_sqrt_dot (u : Vec3 ℝ) : u.length Real.sqrt = Real.sqrt (u.dot u) := rfl

theorem Vec3.length_nonneg (u : Vec3 ℝ) : 0 ≤ u.length Real.sqrt := Real.sqrt_nonneg _

theorem Vec3.length_eq_one_of_dot (u : Vec3 ℝ) (h : u.dot u = 1) : u.length Real.sqrt = 1 := by
  rw [Vec3.length_eq_sqrt_dot, h, Real.sqrt_one]

theorem Vec3.dot_normalize (d w : Vec3 ℝ) :
    d.dot (w.normalize Real.sqrt) = d.dot w / w.length Real.sqrt := by
  simp only [Vec3.dot, Vec3.normalize]
  ring

theorem Vec3.normalize_dot_self (w : Vec3 ℝ) (h : 0 < w.length Real.sqrt) :
    (w.normalize Real.sqrt).dot (w.normalize Real.sqrt) = 1 := by
  have h2 := Vec3.length_sq w
  have hne : w.length Real.sqrt ≠ 0 := ne_of_gt h
  simp only [Vec3.dot, Vec3.normalize] at *
  field_simp
  nlinarith

theorem Vec3.length_normalize (w : Vec3 ℝ) (h : 0 < w.length Real.sqrt) :
    (w.normalize Real.sqrt).length Real.sqrt = 1 :=
  Vec3.length_eq_one_of_dot _ (Vec3.normalize_dot_self w h)

theorem Vec3.ne_zero_of_length_one (u : Vec3 ℝ) (h : u.length Real.sqrt = 1) :
    u ≠ ⟨0, 0, 0⟩ := by
  intro h0
  rw [h0] at h
  simp [Vec3.length] at h

/-- The normal at a reported hit on a sphere of positive radius is a unit
vector. -/
theorem hitNormal_length (ray : Ray ℝ) (sphere : Sphere ℝ) (t : ℝ)
    (hdir : ray.direction ≠ ⟨0, 0, 0⟩) (hr : 0 < sphere.radius)
    (hhit : intersectSphere Real.sqrt ray sphere = some t) :
    (hitNormal Real.sqrt ray sphere t).length Real.sqrt = 1 := by
  apply Vec3.length_normalize
  rw [hit_length_eq_radius ray sphere t hdir hr hhit]
  exact hr

/-- At a reported hit the ray direction does not point along the outward
normal. -/
theorem hitNormal_dot_nonpos (ray : Ray ℝ) (sphere : Sphere ℝ) (t : ℝ)
    (hdir : ray.direction ≠ ⟨0, 0, 0⟩)
    (hhit : intersectSphere Real.sqrt ray sphere = some t) :
    ray.direction.dot (hitNormal Real.sqrt ray sphere t) ≤ 0 := by
  rw [hitNormal, Vec3.dot_normalize]
  exact div_nonpos_of_nonpos_of_nonneg (hit_direction_dot_nonpos ray sphere t hdir hhit)
    (Vec3.length_nonneg _)

theorem insideFlag_false (ray : Ray ℝ) (sphere : Sphere ℝ) (t : ℝ)
    (hdir : ray.direction ≠ ⟨0, 0, 0⟩)
    (hhit : intersectSphere Real.sqrt ray sphere = some t) :
    insideFlag Real.sqrt ray sphere t = false := by
  rw [insideFlag, decide_eq_false_iff_not, not_lt]
  exact hitNormal_dot_nonpos ray sphere t hdir hhit

/-- A ray that starts at `center + n * (radius + 0.001)` and does not point
against `n` is reported as missing the sphere. -/
theorem biased_ray_misses (sphere : Sphere ℝ) (n v : Vec3 ℝ) (hr : 0 < sphere.radius)
    (hv : 0 ≤ v.dot n) :
    intersectSphere Real.sqrt ⟨sphere.center + n * (sphere.radius + 0.001), v⟩ sphere =
      none := by
  apply intersectSphere_none_of_quadB_nonneg
  have e : quadB (⟨sphere.center + n * (sphere.radius + 0.001), v⟩ : Ray ℝ) sphere =
      2 * ((sphere.radius + 0.001) * v.dot n) := by
    simp only [quadB, Vec3.dot, Vec3.add_def, Vec3.sub_def, Vec3.scale_def]
    ring
  rw [e]
  have : (0 : ℝ) ≤ sphere.radius + 0.001 := by linarith
  positivity

/-- A point at distance `radius` from the centre, moved by `0.001` along its
normal, is `center + normal * (radius + 0.001)`. -/
theorem biased_origin_eq (center point : Vec3 ℝ) (r : ℝ) (hr : 0 < r)
    (hl : (point - center).length Real.sqrt = r) :
    point + (point - center).normalize Real.sqrt * (0.001 : ℝ) =
      center + (point - center).normalize Real.sqrt * (r + 0.001) := by
  have hne : r ≠ 0 := ne_of_gt hr
  have key : ∀ p c w : ℝ, w = p - c → p + w / r * 0.001 = c + w / r * (r + 0.001) := by
    intro p c w h
    subst h
    field_simp
    ring
  unfold Vec3.normalize
  rw [hl]
  simp only [Vec3.add_def, Vec3.scale_def]
  ext <;> simp only [] <;> apply key <;> rfl

theorem reflect_dot_normal (d n : Vec3 ℝ) (hn : n.dot n = 1) :
    (reflect d n).dot n = -(d.dot n) := by
  simp only [reflect, Vec3.dot, Vec3.sub_def, Vec3.scale_def] at *
  linear_combination (-(2 * (d.x * n.x + d.y * n.y + d.z * n.z))) * hn

theorem Vec3.normalize_dot (w n : Vec3 ℝ) :
    (w.normalize Real.sqrt).dot n = w.dot n / w.length Real.sqrt := by
  simp only [Vec3.dot, Vec3.normalize]
  ring

/-- The reflection ray spawned at a reported hit misses the sphere it starts
on. -/
theorem reflectRay_misses (ray : Ray ℝ) (sphere : Sphere ℝ) (t : ℝ)
    (hdir : ray.direction ≠ ⟨0, 0, 0⟩) (hr : 0 < sphere.radius)
    (hhit : intersectSphere Real.sqrt ray sphere = some t) :
    intersectSphere Real.sqrt (reflectRay Real.sqrt ray sphere t) sphere = none := by
  have hl := hit_length_eq_radius ray sphere t hdir hr hhit
  have hn : (hitNormal Real.sqrt ray sphere t).dot (hitNormal Real.sqrt ray sphere t) = 1 :=
    Vec3.dot_self_of_length_one _ (hitNormal_length ray sphere t hdir hr hhit)
  have hd := hitNormal_dot_nonpos ray sphere t hdir hhit
  rw [reflectRay]
  have ho : ray.pointAt t + hitNormal Real.sqrt ray sphere t * (0.001 : ℝ) =
      sphere.center + hitNormal Real.sqrt ray sphere t * (sphere.radius + 0.001) :=
    biased_origin_eq sphere.center (ray.pointAt t) sphere.radius hr hl
  rw [ho]
  apply biased_ray_misses sphere _ _ hr
  rw [Vec3.normalize_dot, reflect_dot_normal _ _ hn]
  exact div_nonneg (by linarith) (Vec3.length_nonneg _)

/-- The square of the vector written by `refract`. -/
theorem refract_dot_self (d N : Vec3 ℝ) (n c : ℝ) (hd : d.dot d = 1) (hN : N.dot N = 1)
    (hc : c * c = 1 - n * n * (1 - -d.dot N * -d.dot N)) :
    (d * n + N * (n * -d.dot N - c)).dot (d * n + N * (n * -d.dot N - c)) = 1 := by
  simp only [Vec3.dot, Vec3.add_def, Vec3.scale_def] at *
  linear_combination (n ^ 2) * hd +
    (n * (d.x * N.x + d.y * N.y + d.z * N.z) + c) ^ 2 * hN + hc

theorem refract_some_iff (d N : Vec3 ℝ) (n1 n2 : ℝ) (r : Vec3 ℝ) :
    refract Real.sqrt d N n1 n2 = some r ↔
      ¬ n1 / n2 * (n1 / n2) * (1 - -d.dot N * -d.dot N) > 1 ∧
        r = d * (n1 / n2) + N * (n1 / n2 * -d.dot N -
          Real.sqrt (1 - n1 / n2 * (n1 / n2) * (1 - -d.dot N * -d.dot N))) := by
  unfold refract
  simp only []
  split_ifs with h
  · constructor
    · intro h2; cases h2
    · rintro ⟨h2, -⟩; exact absurd h h2
  · simp only [Option.some.injEq, h, not_false_eq_true, true_and]
    exact eq_comm

/-- The vector written by `refract` for unit `d` and `N` is a unit vector. -/
theorem refract_length (d N : Vec3 ℝ) (n1 n2 : ℝ) (r : Vec3 ℝ)
    (hd : d.length Real.sqrt = 1) (hN : N.length Real.sqrt = 1)
    (h : refract Real.sqrt d N n1 n2 = some r) : r.length Real.sqrt = 1 := by
  obtain ⟨hle, hr⟩ := (refract_some_iff d N n1 n2 r).mp h
  apply Vec3.length_eq_one_of_dot
  rw [hr]
  apply refract_dot_self d N _ _ (Vec3.dot_self_of_length_one d hd)
    (Vec3.dot_self_of_length_one N hN)
  exact Real.mul_self_sqrt (by linarith [not_lt.mp hle])

theorem lightDir_beyondScene :
    lightDir Real.sqrt (beyondScene : Scene ℝ) ⟨0, 0, 0⟩ = ⟨0, 0, 1⟩ := by
  have h4 : ((2 : ℝ) - 0) * (2 - 0) = 4 := by norm_num
  simp [lightDir, beyondScene, Vec3.normalize, Vec3.length, h4, sqrt_four]

theorem shadowRay_beyondScene :
    shadowRay Real.sqrt (beyondScene : Scene ℝ) ⟨0, 0, 0⟩ ⟨0, 0, 1⟩ =
      ⟨⟨0, 0, 0.001⟩, ⟨0, 0, 1⟩⟩ := by
  rw [shadowRay, lightDir_beyondScene]
  simp

theorem shadowRay_hits_beyond (s : Sphere ℝ) (hs : s ∈ (beyondScene : Scene ℝ).spheres) :
    intersectSphere Real.sqrt
      (shadowRay Real.sqrt (beyondScene : Scene ℝ) ⟨0, 0, 0⟩ ⟨0, 0, 1⟩) s = some 3.999 := by
  have hs2 : s = ⟨⟨0, 0, 5⟩, 1, ⟨1, 1, 1⟩, 0, 0, 1, ⟨0, 0, 5⟩⟩ := by
    simpa [beyondScene] using hs
  rw [shadowRay_beyondScene, hs2]
  have hD : discriminant (⟨⟨0, 0, 0.001⟩, ⟨0, 0, 1⟩⟩ : Ray ℝ)
      ⟨⟨0, 0, 5⟩, 1, ⟨1, 1, 1⟩, 0, 0, 1, ⟨0, 0, 5⟩⟩ = 4 := by
    simp [discriminant, quadA, quadB, quadC, Vec3.dot]
    norm_num
  rw [intersectSphere_some_iff]
  refine ⟨by rw [hD]; norm_num, by norm_num, ?_⟩
  rw [smallerRoot, hD, sqrt_four]
  simp [quadA, quadB, Vec3.dot]
  norm_num

theorem light_distance_beyondScene :
    ((beyondScene : Scene ℝ).light.position -
      (shadowRay Real.sqrt (beyondScene : Scene ℝ) ⟨0, 0, 0⟩ ⟨0, 0, 1⟩).origin).length
        Real.sqrt = 1.999 := by
  rw [shadowRay_beyondScene]
  simp only [beyondScene, Vec3.length, Vec3.sub_def]
  have e : ((0 : ℝ) - 0) * (0 - 0) + (0 - 0) * (0 - 0) + (2 - 0.001) * (2 - 0.001) =
      1.999 * 1.999 := by norm_num
  rw [e]
  exact Real.sqrt_mul_self (by norm_num)

theorem initialScene_sameButReflectivity :
    Scene.SameButReflectivity (initialScene : Scene ℝ) initialSceneAlt := by
  refine ⟨?_, rfl, rfl⟩
  simp only [initialScene, initialSpheres, initialSceneAlt]
  refine List.Forall₂.cons ?_ (List.Forall₂.cons ?_ (List.Forall₂.cons ?_ List.Forall₂.nil))
  · exact ⟨rfl, rfl, rfl, rfl, rfl, rfl, Or.inl rfl⟩
  · exact ⟨rfl, rfl, rfl, rfl, rfl, rfl, Or.inl rfl⟩
  · exact ⟨rfl, rfl, rfl, rfl, rfl, rfl, Or.inr (by norm_num)⟩

theorem reflect_dot_self (d n : Vec3 ℝ) (hn : n.dot n = 1) :
    (reflect d n).dot (reflect d n) = d.dot d := by
  simp only [reflect, Vec3.dot, Vec3.sub_def, Vec3.scale_def] at *
  linear_combination (4 * (d.x * n.x + d.y * n.y + d.z * n.z) ^ 2) * hn

/-- The reflection ray spawned at a hit of a unit-direction ray on a sphere of
positive radius has unit direction. -/
theorem reflectRay_direction_length (ray : Ray ℝ) (sphere : Sphere ℝ) (t : ℝ)
    (hray : ray.direction.length Real.sqrt = 1) (hr : 0 < sphere.radius)
    (hhit : intersectSphere Real.sqrt ray sphere = some t) :
    (reflectRay Real.sqrt ray sphere t).direction.length Real.sqrt = 1 := by
  have hdir := Vec3.ne_zero_of_length_one _ hray
  have hn := Vec3.dot_self_of_length_one _ (hitNormal_length ray sphere t hdir hr hhit)
  simp only [reflectRay]
  apply Vec3.length_normalize
  rw [Vec3.length_eq_one_of_dot]
  · norm_num
  · rw [reflect_dot_self _ _ hn]
    exact Vec3.dot_self_of_length_one _ hray

/-- The refraction ray spawned at a hit of a unit-direction ray on a sphere of
positive radius has unit direction. -/
theorem refractRay_direction_length (ray : Ray ℝ) (sphere : Sphere ℝ) (t : ℝ) (dir : Vec3 ℝ)
    (hray : ray.direction.length Real.sqrt = 1) (hr : 0 < sphere.radius)
    (hhit : intersectSphere Real.sqrt ray sphere = some t)
    (hrf : refract Real.sqrt ray.direction (refractNorm Real.sqrt ray sphere t)
      (refractN1 Real.sqrt ray sphere t) (refractN2 Real.sqrt ray sphere t) = some dir) :
    (refractRay Real.sqrt ray sphere t dir).direction.length Real.sqrt = 1 := by
  have hdir := Vec3.ne_zero_of_length_one _ hray
  have hn := hitNormal_length ray sphere t hdir hr hhit
  have hf := insideFlag_false ray sphere t hdir hhit
  have hnorm : refractNorm Real.sqrt ray sphere t = hitNormal Real.sqrt ray sphere t := by
    simp [refractNorm, hf]
  rw [hnorm] at hrf
  simp only [refractRay]
  apply Vec3.length_normalize
  rw [refract_length _ _ _ _ _ hray hn hrf]
  norm_num

/-- In a scene within the ranges of the data model, the colour traced for a
ray of unit direction has no negative component. -/
theorem traceRay_nonneg_aux (sc : Scene ℝ) (hsc : sc.InRange) (n : Nat) :
    ∀ (ray : Ray ℝ) (depth : Int), (6 - depth).toNat ≤ n →
      ray.direction.length Real.sqrt = 1 →
      (traceRay Real.sqrt sc ray depth).Nonneg := by
  induction n with
  | zero =>
    intro ray depth hn _
    have hd : depth > 5 := by omega
    rw [traceRay, if_pos hd]
    exact ⟨le_refl _, le_refl _, le_refl _⟩
  | succ n ih =>
    intro ray depth hn hray
    rw [traceRay_unfold]
    by_cases hd : depth > 5
    · rw [if_pos hd]
      exact ⟨le_refl _, le_refl _, le_refl _⟩
    · rw [if_neg hd]
      cases hnh : nearestHit Real.sqrt ray sc.spheres with
      | none =>
        simp only []
        refine ⟨?_, ?_, ?_⟩ <;> norm_num
      | some p =>
        obtain ⟨tMin, i, hit⟩ := p
        simp only []
        obtain ⟨hmem, hhit⟩ := nearestHit_some_hit Real.sqrt ray sc.spheres tMin i hit hnh
        have hin := hsc.1 hit hmem
        have hdir := Vec3.ne_zero_of_length_one _ hray
        have hnl := hitNormal_length ray hit tMin hdir hin.1 hhit
        obtain ⟨hf0, hf1⟩ := fresnel_bounds ray.direction (hitNormal Real.sqrt ray hit tMin)
          (abs_dot_le_one _ _ hray hnl)
        apply shade_nonneg Real.sqrt sc ray hit tMin _ _ hsc.2 hin (by linarith) hf1
        · exact ih _ _ (by omega) (reflectRay_direction_length ray hit tMin hray hin.1 hhit)
        · cases hrf : refract Real.sqrt ray.direction (refractNorm Real.sqrt ray hit tMin)
            (refractN1 Real.sqrt ray hit tMin) (refractN2 Real.sqrt ray hit tMin) with
          | none => exact ⟨le_refl _, le_refl _, le_refl _⟩
          | some dir =>
            exact ih _ _ (by omega)
              (refractRay_direction_length ray hit tMin dir hray hin.1 hhit hrf)

theorem initialScene_inRange : (initialScene : Scene ℝ).InRange := by
  constructor
  · intro s hs
    simp only [initialScene, initialSpheres, List.mem_cons, List.mem_singleton,
      List.not_mem_nil, or_false] at hs
    rcases hs with rfl | rfl | rfl <;>
      · simp only [Sphere.InRange]
        norm_num
  · simp only [initialScene, initialLight]
    norm_num

theorem centerRay_direction_length : (centerRay : Ray ℝ).direction.length Real.sqrt = 1 := by
  simp [centerRay, Vec3.length]

theorem nearestHit_mirrorRay :
    nearestHit Real.sqrt (mirrorRay : Ray ℝ) (initialScene : Scene ℝ).spheres =
      some (4, 1, ⟨⟨2, 0, -5⟩, 1, ⟨0.2, 0.2, 0.2⟩, 0.9, 0, 1, ⟨2, 0, -5⟩⟩) := by
  have h0 : intersectSphere Real.sqrt (mirrorRay : Ray ℝ)
      ⟨⟨0, 0, -5⟩, 1, ⟨1, 0.2, 0.2⟩, 0, 0, 1, ⟨0, 0, -5⟩⟩ = none := by
    rw [intersectSphere_none_iff]
    left
    simp [discriminant, quadA, quadB, quadC, mirrorRay, Vec3.dot]
    norm_num
  have h2 : intersectSphere Real.sqrt (mirrorRay : Ray ℝ)
      ⟨⟨-2, 0, -5⟩, 1, ⟨0.9, 0.9, 0.9⟩, 0.1, 0.9, 1.5, ⟨-2, 0, -5⟩⟩ = none := by
    rw [intersectSphere_none_iff]
    left
    simp [discriminant, quadA, quadB, quadC, mirrorRay, Vec3.dot]
    norm_num
  have h1 : intersectSphere Real.sqrt (mirrorRay : Ray ℝ)
      ⟨⟨2, 0, -5⟩, 1, ⟨0.2, 0.2, 0.2⟩, 0.9, 0, 1, ⟨2, 0, -5⟩⟩ = some 4 := by
    have hD : discriminant (mirrorRay : Ray ℝ)
        ⟨⟨2, 0, -5⟩, 1, ⟨0.2, 0.2, 0.2⟩, 0.9, 0, 1, ⟨2, 0, -5⟩⟩ = 4 := by
      simp [discriminant, quadA, quadB, quadC, mirrorRay, Vec3.dot]
      norm_num
    rw [intersectSphere_some_iff]
    refine ⟨by rw [hD]; norm_num, by norm_num, ?_⟩
    rw [smallerRoot, hD, sqrt_four]
    simp [quadA, quadB, mirrorRay, Vec3.dot]
    norm_num
  simp only [nearestHit, initialScene, initialSpheres, nearestLoop, nearestStep, h0, h1, h2]

/-! ## Claims -/

/-- C1: for every sphere and every ray with non-zero direction, when
`intersectSphere` reports a hit at distance `t`, then `t > 0` and
`ray.pointAt t` lies exactly on the sphere: the squared distance from the
centre equals the squared radius (over the reals, with the exact square root).
This covers in particular every ray whose origin is outside the sphere and
whose discriminant is non-negative. -/
theorem intersectSphere_hit_on_surface (ray : Ray ℝ) (sphere : Sphere ℝ) (t : ℝ)
    (hdir : ray.direction ≠ ⟨0, 0, 0⟩)
    (hhit : intersectSphere Real.sqrt ray sphere = some t) :
    0 < t ∧
      ((ray.pointAt t - sphere.center).length Real.sqrt) ^ 2 = sphere.radius ^ 2 := by
  obtain ⟨hD, ht, hEq⟩ := (intersectSphere_some_iff Real.sqrt ray sphere t).mp hhit
  refine ⟨ht, ?_⟩
  rw [Vec3.length_sq, pointAt_dist_sq]
  have ha : 0 < quadA ray := Vec3.dot_self_pos _ hdir
  have hs : Real.sqrt (discriminant ray sphere) * Real.sqrt (discriminant ray sphere) =
      quadB ray sphere * quadB ray sphere - 4 * quadA ray * quadC ray sphere :=
    Real.mul_self_sqrt hD
  have h2 : t * (2 * quadA ray) =
      -quadB ray sphere - Real.sqrt (discriminant ray sphere) := by
    rw [hEq, smallerRoot]; field_simp
  have key := quadratic_root _ _ _ _ _ h2 hs
  have h4 : (4 : ℝ) * quadA ray ≠ 0 := by positivity
  have := (mul_eq_zero.mp key).resolve_left h4
  rw [sq]
  linarith

/-- Witness for C1: the centre ray hits the matte red sphere at `t = 4`. -/
theorem intersectSphere_hit_on_surface_witness :
    (centerRay : Ray ℝ).direction ≠ ⟨0, 0, 0⟩ ∧
      intersectSphere Real.sqrt centerRay (matteRed (1 : ℝ) ⟨0, 0, -5⟩) = some 4 ∧
      (0 : ℝ) < 4 ∧
      (((centerRay : Ray ℝ).pointAt 4 - (matteRed (1 : ℝ) ⟨0, 0, -5⟩).center).length
        Real.sqrt) ^ 2 = (matteRed (1 : ℝ) ⟨0, 0, -5⟩).radius ^ 2 :=
  have hdir : (centerRay : Ray ℝ).direction ≠ ⟨0, 0, 0⟩ := by
    simp [centerRay]
  ⟨hdir, centerRay_hits_matteRed 1 ⟨0, 0, -5⟩,
    intersectSphere_hit_on_surface centerRay (matteRed 1 ⟨0, 0, -5⟩) 4 hdir
      (centerRay_hits_matteRed 1 ⟨0, 0, -5⟩)⟩

/-- C2: for every ray, every scene and every depth greater than 5, `traceRay`
returns exactly the black colour `(0, 0, 0)`. -/
theorem traceRay_depth_gt_five {F : Type} [LinearOrderedField F] (sqrt : F → F)
    (sc : Scene F) (ray : Ray F) (depth : Int) (hdepth : depth > 5) :
    traceRay sqrt sc ray depth = ⟨0, 0, 0⟩ := by
  rw [traceRay, if_pos hdepth]

/-- Witness for C2: the centre ray in the initial scene at depth 6. -/
theorem traceRay_depth_gt_five_witness :
    (6 : Int) > 5 ∧ traceRay Real.sqrt (initialScene : Scene ℝ) centerRay 6 = ⟨0, 0, 0⟩ :=
  ⟨by decide, traceRay_depth_gt_five Real.sqrt initialScene centerRay 6 (by decide)⟩

/-- C3: for every depth at most 5, every scene (the empty one included) and
every ray that `intersectSphere` reports as missing every sphere of the scene,
`traceRay` returns exactly the background colour `(0.1, 0.1, 0.1)`. -/
theorem traceRay_all_miss {F : Type} [LinearOrderedField F] (sqrt : F → F)
    (sc : Scene F) (ray : Ray F) (depth : Int) (hdepth : depth ≤ 5)
    (hmiss : ∀ s ∈ sc.spheres, intersectSphere sqrt ray s = none) :
    traceRay sqrt sc ray depth = ⟨0.1, 0.1, 0.1⟩ := by
  have hn : nearestHit sqrt ray sc.spheres = none :=
    nearestLoop_none_of_all_miss sqrt ray sc.spheres 0 hmiss
  rw [traceRay, if_neg (not_lt.mpr hdepth), hn]

/-- Witness for C3: the ray pointing away from the three spheres of the
initial scene, at depth 0. -/
theorem traceRay_all_miss_witness :
    (0 : Int) ≤ 5 ∧
      (∀ s ∈ (initialScene : Scene ℝ).spheres, intersectSphere Real.sqrt awayRay s = none) ∧
      traceRay Real.sqrt (initialScene : Scene ℝ) awayRay 0 = ⟨0.1, 0.1, 0.1⟩ :=
  ⟨by decide, awayRay_misses_initialSpheres,
    traceRay_all_miss Real.sqrt initialScene awayRay 0 (by decide)
      awayRay_misses_initialSpheres⟩

/-- C4: `reflect` is an involution for a fixed unit normal: for every unit
vector `d` and every unit vector `n`, `reflect (reflect d n) n = d`. -/
theorem reflect_involution (d n : Vec3 ℝ) (_hd : d.length Real.sqrt = 1)
    (hn : n.length Real.sqrt = 1) : reflect (reflect d n) n = d := by
  have h1 : n.x * n.x + n.y * n.y + n.z * n.z = 1 := Vec3.dot_self_of_length_one n hn
  simp only [reflect, Vec3.dot, Vec3.sub_def, Vec3.scale_def]
  ext
  · simp only []; linear_combination (2 * n.x * (d.x * n.x + d.y * n.y + d.z * n.z) * 2) * h1
  · simp only []; linear_combination (2 * n.y * (d.x * n.x + d.y * n.y + d.z * n.z) * 2) * h1
  · simp only []; linear_combination (2 * n.z * (d.x * n.x + d.y * n.y + d.z * n.z) * 2) * h1

/-- Witness for C4: the unit vector `(3/5, 0, -4/5)` and the normal `(0, 0, 1)`. -/
theorem reflect_involution_witness :
    (⟨3 / 5, 0, -4 / 5⟩ : Vec3 ℝ).length Real.sqrt = 1 ∧
      (⟨0, 0, 1⟩ : Vec3 ℝ).length Real.sqrt = 1 ∧
      reflect (reflect (⟨3 / 5, 0, -4 / 5⟩ : Vec3 ℝ) ⟨0, 0, 1⟩) ⟨0, 0, 1⟩ =
        ⟨3 / 5, 0, -4 / 5⟩ :=
  have hd : (⟨3 / 5, 0, -4 / 5⟩ : Vec3 ℝ).length Real.sqrt = 1 := by
    simp only [Vec3.length]
    norm_num
  have hn : (⟨0, 0, 1⟩ : Vec3 ℝ).length Real.sqrt = 1 := by
    simp [Vec3.length]
  ⟨hd, hn, reflect_involution _ _ hd hn⟩

/-- C5: for all `n1 > 0` and `n2 > 0`, `refract` returns `false` exactly when
`sinT2 = (n1 / n2)^2 * (1 - (incident . normal)^2)` is greater than 1, and
returns `true` otherwise. -/
theorem refract_false_iff {F : Type} [LinearOrderedField F] (sqrt : F → F)
    (incident normal : Vec3 F) (n1 n2 : F) (_hn1 : 0 < n1) (_hn2 : 0 < n2) :
    (refract sqrt incident normal n1 n2 = none ↔
        (n1 / n2) ^ 2 * (1 - (incident.dot normal) ^ 2) > 1) ∧
      ((refract sqrt incident normal n1 n2).isSome = true ↔
        ¬ (n1 / n2) ^ 2 * (1 - (incident.dot normal) ^ 2) > 1) := by
  have e : n1 / n2 * (n1 / n2) * (1 - -incident.dot normal * -incident.dot normal) =
      (n1 / n2) ^ 2 * (1 - (incident.dot normal) ^ 2) := by ring
  unfold refract
  simp only [e]
  split_ifs with h
  · simp [h]
  · simp [h]

/-- Witness for C5: a grazing ray leaving glass (`n1 = 1.5`, `n2 = 1`) is
totally reflected, and the ray along the normal is refracted. -/
theorem refract_false_iff_witness :
    (0 : ℝ) < 1.5 ∧ (0 : ℝ) < 1 ∧
      refract Real.sqrt (⟨1, 0, 0⟩ : Vec3 ℝ) ⟨0, 0, 1⟩ 1.5 1 = none ∧
      (refract Real.sqrt (⟨0, 0, -1⟩ : Vec3 ℝ) ⟨0, 0, 1⟩ 1.5 1).isSome = true :=
  ⟨by norm_num, by norm_num,
    (refract_false_iff Real.sqrt ⟨1, 0, 0⟩ ⟨0, 0, 1⟩ 1.5 1 (by norm_num) (by norm_num)).1.mpr
      (by simp only [Vec3.dot]; norm_num),
    (refract_false_iff Real.sqrt ⟨0, 0, -1⟩ ⟨0, 0, 1⟩ 1.5 1 (by norm_num) (by norm_num)).2.mpr
      (by simp only [Vec3.dot]; norm_num)⟩

/-- C6: `computeLighting` returns `albedo * D` when the shadow ray (origin
`point + normal * 0.001`, direction towards the light) hits no sphere of the
scene and `albedo * (D * 0.2)` when it hits at least one, where
`D = max(0, normal . lightDir) * light.intensity`; the factor `0.2` is applied
once, however many spheres the shadow ray hits. -/
theorem computeLighting_cases {F : Type} [LinearOrderedField F] (sqrt : F → F)
    (sc : Scene F) (point normal albedo : Vec3 F) :
    ((∀ s ∈ sc.spheres, intersectSphere sqrt (shadowRay sqrt sc point normal) s = none) →
        computeLighting sqrt sc point normal albedo =
          albedo * (max 0 (normal.dot (lightDir sqrt sc point)) * sc.light.intensity)) ∧
      ((∃ s ∈ sc.spheres,
          (intersectSphere sqrt (shadowRay sqrt sc point normal) s).isSome = true) →
        computeLighting sqrt sc point normal albedo =
          albedo *
            (max 0 (normal.dot (lightDir sqrt sc point)) * sc.light.intensity * 0.2)) := by
  constructor
  · intro hmiss
    rw [computeLighting_eq, shadowLoop_all_miss sqrt _ _ _ hmiss]
    rfl
  · intro hhit
    rw [computeLighting_eq, shadowLoop_some_hit sqrt _ _ _ hhit]
    rfl

/-- Witness for C6: at the nearest point of the matte red sphere, with two
occluding spheres on the way to the light, the lighting is attenuated once. -/
theorem computeLighting_cases_witness :
    (∃ s ∈ (shadowedScene : Scene ℝ).spheres,
        (intersectSphere Real.sqrt
          (shadowRay Real.sqrt (shadowedScene : Scene ℝ) ⟨0, 0, -4⟩ ⟨0, 0, 1⟩) s).isSome
            = true) ∧
      computeLighting Real.sqrt (shadowedScene : Scene ℝ) ⟨0, 0, -4⟩ ⟨0, 0, 1⟩ ⟨1, 0.2, 0.2⟩ =
        (⟨1, 0.2, 0.2⟩ : Vec3 ℝ) *
          (max 0 ((⟨0, 0, 1⟩ : Vec3 ℝ).dot
            (lightDir Real.sqrt (shadowedScene : Scene ℝ) ⟨0, 0, -4⟩)) *
              (shadowedScene : Scene ℝ).light.intensity * 0.2) :=
  have hhit : ∃ s ∈ (shadowedScene : Scene ℝ).spheres,
      (intersectSphere Real.sqrt
        (shadowRay Real.sqrt (shadowedScene : Scene ℝ) ⟨0, 0, -4⟩ ⟨0, 0, 1⟩) s).isSome
          = true :=
    ⟨occluder, by simp [shadowedScene], by rw [shadowRay_hits_occluder]; rfl⟩
  ⟨hhit, (computeLighting_cases Real.sqrt shadowedScene ⟨0, 0, -4⟩ ⟨0, 0, 1⟩
    ⟨1, 0.2, 0.2⟩).2 hhit⟩

/-- C7: in the scene of the single matte red sphere (centre `(0, 0, -5)`,
radius 1, albedo `(1, 0.2, 0.2)`, reflectivity 0, transparency 0) with the
light at `(5, 5, -3)` of intensity `1.5`, tracing the ray from `(0, 0, 0)` in
direction `(0, 0, -1)` at depth 0 finds the sphere at `t = 4` with normal
`(0, 0, 1)`, the shadow ray hits nothing, and the colour returned is the
unshadowed `albedo * (1.5 / sqrt 51)`: three strictly positive components, the
red one the largest. -/
theorem traceRay_matteScene (ri : ℝ) (oc lc : Vec3 ℝ) (tv : ℝ) :
    nearestHit Real.sqrt centerRay (matteScene ri oc lc tv).spheres =
        some (4, 0, matteRed ri oc) ∧
      ((centerRay : Ray ℝ).pointAt 4 - (matteRed ri oc).center).normalize Real.sqrt =
        ⟨0, 0, 1⟩ ∧
      (∀ s ∈ (matteScene ri oc lc tv).spheres,
        intersectSphere Real.sqrt
          (shadowRay Real.sqrt (matteScene ri oc lc tv) ((centerRay : Ray ℝ).pointAt 4)
            ⟨0, 0, 1⟩) s = none) ∧
      traceRay Real.sqrt (matteScene ri oc lc tv) centerRay 0 =
        (matteRed ri oc).color * (1.5 / Real.sqrt 51) ∧
      0 < (traceRay Real.sqrt (matteScene ri oc lc tv) centerRay 0).x ∧
      0 < (traceRay Real.sqrt (matteScene ri oc lc tv) centerRay 0).y ∧
      0 < (traceRay Real.sqrt (matteScene ri oc lc tv) centerRay 0).z ∧
      (traceRay Real.sqrt (matteScene ri oc lc tv) centerRay 0).y <
        (traceRay Real.sqrt (matteScene ri oc lc tv) centerRay 0).x ∧
      (traceRay Real.sqrt (matteScene ri oc lc tv) centerRay 0).z <
        (traceRay Real.sqrt (matteScene ri oc lc tv) centerRay 0).x := by
  have hmiss : ∀ s ∈ (matteScene ri oc lc tv).spheres,
      intersectSphere Real.sqrt
        (shadowRay Real.sqrt (matteScene ri oc lc tv) ((centerRay : Ray ℝ).pointAt 4)
          ⟨0, 0, 1⟩) s = none := by
    intro s hs
    have hs2 : s = matteRed ri oc := by simpa [matteScene] using hs
    rw [hs2]
    exact shadow_miss_matteScene ri oc lc tv
  have h51 : 0 < Real.sqrt 51 := Real.sqrt_pos.mpr (by norm_num)
  have hd : diffuseTerm Real.sqrt (matteScene ri oc lc tv) ((centerRay : Ray ℝ).pointAt 4)
      ⟨0, 0, 1⟩ = 1.5 / Real.sqrt 51 := by
    rw [diffuseTerm, lightDir_matteScene]
    have hpos : (0 : ℝ) ≤ 1 / Real.sqrt 51 := by positivity
    simp only [Vec3.dot, matteScene]
    rw [show (0 : ℝ) * (5 / Real.sqrt 51) + 0 * (5 / Real.sqrt 51) + 1 * (1 / Real.sqrt 51) =
      1 / Real.sqrt 51 by ring, max_eq_right hpos]
    ring
  have htrace : traceRay Real.sqrt (matteScene ri oc lc tv) centerRay 0 =
      (matteRed ri oc).color * (1.5 / Real.sqrt 51) := by
    rw [traceRay, if_neg (by decide), nearestHit_matteScene]
    simp only [normal_matteRed]
    rw [if_neg (by simp [matteRed]), computeLighting_eq,
      shadowLoop_all_miss Real.sqrt _ _ _ hmiss, hd]
  refine ⟨nearestHit_matteScene ri oc lc tv, normal_matteRed ri oc, hmiss, htrace, ?_⟩
  rw [htrace]
  have hq : (0 : ℝ) < 1.5 / Real.sqrt 51 := by positivity
  simp only [matteRed, Vec3.scale_def]
  refine ⟨?_, ?_, ?_, ?_, ?_⟩ <;> nlinarith

/-- C8: when at least one sphere of the scene is hit, the nearest-hit scan of
`traceRay` selects a sphere of the scene whose hit distance is the least among
all spheres reported as hit, and which comes first in scene order among the
spheres of that distance; when no sphere is hit the scan selects none. -/
theorem nearestHit_min_first {F : Type} [LinearOrderedField F] (sqrt : F → F) (ray : Ray F)
    (spheres : List (Sphere F)) :
    ((∃ s ∈ spheres, (intersectSphere sqrt ray s).isSome = true) →
        ∃ (t : F) (i : Nat) (s : Sphere F),
          nearestHit sqrt ray spheres = some (t, i, s) ∧ spheres[i]? = some s ∧
            intersectSphere sqrt ray s = some t ∧
            ∀ (j : Nat) (s2 : Sphere F) (t2 : F), spheres[j]? = some s2 →
              intersectSphere sqrt ray s2 = some t2 → t ≤ t2 ∧ (t2 = t → i ≤ j)) ∧
      ((∀ s ∈ spheres, intersectSphere sqrt ray s = none) →
        nearestHit sqrt ray spheres = none) := by
  have h := nearestHit_isNearest sqrt ray spheres
  constructor
  · rintro ⟨s, hs, hhit⟩
    match hn : nearestHit sqrt ray spheres, h with
    | none, h =>
      rw [h s hs] at hhit
      cases hhit
    | some (t, i, s1), h => exact ⟨t, i, s1, rfl, h⟩
  · intro hmiss
    exact nearestLoop_none_of_all_miss sqrt ray spheres 0 hmiss

/-- C9: for every sphere and every ray with non-zero direction whose origin
lies strictly inside the sphere, `intersectSphere` reports no hit, although the
larger root of the quadratic is positive. -/
theorem intersectSphere_origin_inside (ray : Ray ℝ) (sphere : Sphere ℝ)
    (hdir : ray.direction ≠ ⟨0, 0, 0⟩)
    (hin : (ray.origin - sphere.center).length Real.sqrt < sphere.radius) :
    intersectSphere Real.sqrt ray sphere = none ∧ 0 < largerRoot Real.sqrt ray sphere := by
  have hr : 0 < sphere.radius := lt_of_le_of_lt (Real.sqrt_nonneg _) hin
  have hoc : (ray.origin - sphere.center).dot (ray.origin - sphere.center) <
      sphere.radius ^ 2 := (Real.sqrt_lt' hr).mp hin
  have hc : quadC ray sphere < 0 := by
    unfold quadC
    rw [sq] at hoc
    linarith
  have ha : 0 < quadA ray := Vec3.dot_self_pos _ hdir
  have hD : |quadB ray sphere| ^ 2 < discriminant ray sphere := by
    rw [sq_abs]
    unfold discriminant
    nlinarith [mul_pos ha (neg_pos.mpr hc)]
  have hsq : |quadB ray sphere| < Real.sqrt (discriminant ray sphere) :=
    (Real.lt_sqrt (abs_nonneg _)).mpr hD
  have h2a : 0 < 2 * quadA ray := by linarith
  constructor
  · rw [intersectSphere_none_iff]
    right
    unfold smallerRoot
    apply le_of_lt
    apply div_neg_of_neg_of_pos _ h2a
    have := neg_abs_le (quadB ray sphere)
    linarith
  · unfold largerRoot
    apply div_pos _ h2a
    have := le_abs_self (quadB ray sphere)
    linarith

/-- Witness for C9: a ray that starts at the centre of the matte red sphere. -/
theorem intersectSphere_origin_inside_witness :
    (insideRay : Ray ℝ).direction ≠ ⟨0, 0, 0⟩ ∧
      ((insideRay : Ray ℝ).origin - (matteRed (1 : ℝ) ⟨0, 0, -5⟩).center).length Real.sqrt <
        (matteRed (1 : ℝ) ⟨0, 0, -5⟩).radius ∧
      intersectSphere Real.sqrt insideRay (matteRed (1 : ℝ) ⟨0, 0, -5⟩) = none ∧
      0 < largerRoot Real.sqrt insideRay (matteRed (1 : ℝ) ⟨0, 0, -5⟩) :=
  have hdir : (insideRay : Ray ℝ).direction ≠ ⟨0, 0, 0⟩ := by
    simp [insideRay]
  have hin : ((insideRay : Ray ℝ).origin - (matteRed (1 : ℝ) ⟨0, 0, -5⟩).center).length
      Real.sqrt < (matteRed (1 : ℝ) ⟨0, 0, -5⟩).radius := by
    simp [insideRay, matteRed, Vec3.length]
  ⟨hdir, hin, intersectSphere_origin_inside insideRay (matteRed 1 ⟨0, 0, -5⟩) hdir hin⟩

/-- C10: `updateScene` with elapsed time `e` sets, for the sphere at index `i`
with phase `t = e * (i + 1) * 0.5`, `center.x = originalCenter.x + cos t * 0.5`
and `center.y = originalCenter.y + sin t * 0.5`, sets the light's
`position.x = 5 * cos (e * 0.5)` and `position.y = 5 * sin (e * 0.5)`, and
leaves unchanged each sphere's `center.z`, `originalCenter`, `radius`, colour,
`reflectivity`, `transparency` and `refractiveIndex`, the number and order of
the spheres, and the light's `position.z`, colour and intensity. -/
theorem updateScene_effect {F : Type} [LinearOrderedField F] (sin cos : F → F) (e : F)
    (sc : Scene F) :
    (updateScene sin cos e sc).spheres.length = sc.spheres.length ∧
      (∀ (i : Nat) (s : Sphere F), sc.spheres[i]? = some s →
        ∃ s2 : Sphere F, (updateScene sin cos e sc).spheres[i]? = some s2 ∧
          s2.center.x = s.originalCenter.x + cos (e * ((i : F) + 1) * 0.5) * 0.5 ∧
          s2.center.y = s.originalCenter.y + sin (e * ((i : F) + 1) * 0.5) * 0.5 ∧
          s2.center.z = s.center.z ∧
          s2.originalCenter = s.originalCenter ∧
          s2.radius = s.radius ∧
          s2.color = s.color ∧
          s2.reflectivity = s.reflectivity ∧
          s2.transparency = s.transparency ∧
          s2.refractiveIndex = s.refractiveIndex) ∧
      (updateScene sin cos e sc).light.position.x = 5 * cos (e * 0.5) ∧
      (updateScene sin cos e sc).light.position.y = 5 * sin (e * 0.5) ∧
      (updateScene sin cos e sc).light.position.z = sc.light.position.z ∧
      (updateScene sin cos e sc).light.color = sc.light.color ∧
      (updateScene sin cos e sc).light.intensity = sc.light.intensity := by
  refine ⟨updateSpheres_length sin cos e 0 sc.spheres, ?_, rfl, rfl, rfl, rfl, rfl⟩
  intro i s hs
  refine ⟨updateSphere sin cos e (0 + i) s,
    updateSpheres_getElem? sin cos e 0 sc.spheres i s hs, ?_, ?_, rfl, rfl, rfl, rfl, rfl,
    rfl, rfl⟩
  · simp [updateSphere]
  · simp [updateSphere]

/-- C11: the animator has no hidden state: applying `updateScene` with elapsed
time `e` to a scene already updated with any elapsed time `e2` gives the same
scene as applying it to the original scene; in particular `updateScene` with a
fixed `e` is idempotent. -/
theorem updateScene_no_drift {F : Type} [LinearOrderedField F]
    (sin cos : F → F) (e e2 : F) (sc : Scene F) :
    updateScene sin cos e (updateScene sin cos e2 sc) = updateScene sin cos e sc ∧
      updateScene sin cos e (updateScene sin cos e sc) = updateScene sin cos e sc := by
  have h : ∀ a b : F, updateScene sin cos a (updateScene sin cos b sc) =
      updateScene sin cos a sc := by
    intro a b
    simp only [updateScene, updateSpheres_updateSpheres]
  exact ⟨h e e2, h e e⟩

/-- C12: `traceRay` terminates for every ray, scene and depth: run with a
bound on the number of nested activations, it returns the colour computed by
`traceRay` as soon as the bound is at least `7 - depth` (and at least 1).  In
particular seven nested activations, at depths 0 to 6, suffice when it is
entered at depth 0, so no call is made with a depth greater than 6; a call with
`depth > 5` returns black without recursing; and each recursive call, made
with `depth + 1` where `depth ≤ 5`, decreases `6 - depth`. -/
theorem traceRay_terminates {F : Type} [LinearOrderedField F]
    (sqrt : F → F) (sc : Scene F) (ray : Ray F) (depth : Int) :
    (∀ fuel : Nat, 1 ≤ fuel → (7 - depth).toNat ≤ fuel →
        traceRayFuel sqrt sc fuel ray depth = some (traceRay sqrt sc ray depth)) ∧
      traceRayFuel sqrt sc 7 ray 0 = some (traceRay sqrt sc ray 0) ∧
      (depth > 5 → traceRayFuel sqrt sc 1 ray depth = some ⟨0, 0, 0⟩) ∧
      (depth ≤ 5 → (6 - (depth + 1)).toNat < (6 - depth).toNat) := by
  refine ⟨fun fuel h1 h2 => traceRayFuel_eq sqrt sc fuel ray depth h1 h2,
    traceRayFuel_eq sqrt sc 7 ray 0 (by decide) (by decide), ?_, ?_⟩
  · intro hd
    rw [traceRayFuel, if_pos hd]
  · intro hd
    omega

/-- Sanity check of the fuel bound for C12: in the initial scene the ray at the
mirror sphere needs more than one activation, and seven suffice. -/
theorem traceRay_terminates_witness :
    traceRayFuel Real.sqrt (initialScene : Scene ℝ) 1 mirrorRay 0 = none ∧
      traceRayFuel Real.sqrt (initialScene : Scene ℝ) 7 mirrorRay 0 =
        some (traceRay Real.sqrt (initialScene : Scene ℝ) mirrorRay 0) :=
  ⟨by
    rw [traceRayFuel, if_neg (by decide), nearestHit_mirrorRay]
    simp only []
    rw [if_pos (Or.inl (by norm_num))]
    rfl,
   (traceRay_terminates Real.sqrt initialScene mirrorRay 0).2.1⟩

/-- C13: transparency dominates reflectivity: when two scenes are identical
except for the reflectivity of spheres whose transparency is positive,
`traceRay` returns the same colour in both for every ray and depth; and at a
hit on a sphere of positive transparency the colour returned is
`baseColor * (1 - transparency) +
(reflectColor * fresnel + refractColor * (1 - fresnel)) * transparency`, in
which the reflectivity does not occur. -/
theorem transparency_dominates {F : Type} [LinearOrderedField F]
    (sqrt : F → F) (sc1 sc2 : Scene F)
    (h : Scene.SameButReflectivity sc1 sc2) :
    (∀ (ray : Ray F) (depth : Int),
        traceRay sqrt sc1 ray depth = traceRay sqrt sc2 ray depth) ∧
      (∀ (ray : Ray F) (depth : Int) (tMin : F) (i : Nat) (hit : Sphere F), depth ≤ 5 →
        nearestHit sqrt ray sc1.spheres = some (tMin, i, hit) → hit.transparency > 0 →
        traceRay sqrt sc1 ray depth =
          computeLighting sqrt sc1 (ray.pointAt tMin) (hitNormal sqrt ray hit tMin) hit.color *
              (1 - hit.transparency) +
            (traceRay sqrt sc1 (reflectRay sqrt ray hit tMin) (depth + 1) *
                fresnel ray.direction (hitNormal sqrt ray hit tMin) +
              (match refract sqrt ray.direction (refractNorm sqrt ray hit tMin)
                  (refractN1 sqrt ray hit tMin) (refractN2 sqrt ray hit tMin) with
                | some refractDir =>
                  traceRay sqrt sc1 (refractRay sqrt ray hit tMin refractDir) (depth + 1)
                | none => ⟨0, 0, 0⟩) *
                (1 - fresnel ray.direction (hitNormal sqrt ray hit tMin))) *
              hit.transparency) := by
  constructor
  · intro ray depth
    exact traceRay_congr_aux sqrt sc1 sc2 h (6 - depth).toNat ray depth (le_refl _)
  · intro ray depth tMin i hit hd hn ht
    exact traceRay_transparent sqrt sc1 ray depth tMin i hit hd hn ht

/-- Witness for C13: the initial scene and the one in which the glass sphere
has reflectivity `0.7` instead of `0.1`. -/
theorem transparency_dominates_witness :
    Scene.SameButReflectivity (initialScene : Scene ℝ) initialSceneAlt ∧
      traceRay Real.sqrt (initialScene : Scene ℝ) centerRay 0 =
        traceRay Real.sqrt (initialSceneAlt : Scene ℝ) centerRay 0 :=
  ⟨initialScene_sameButReflectivity,
    (transparency_dominates Real.sqrt initialScene initialSceneAlt
      initialScene_sameButReflectivity).1 centerRay 0⟩

/-- The statement of C14 is false: there is no scene within the ranges of the
data model and no ray of unit direction for which `traceRay` at depth 0
returns a colour with a strictly negative component. -/
theorem traceRay_negative_refuted :
    ¬ ∃ (sc : Scene ℝ) (ray : Ray ℝ), sc.InRange ∧ ray.direction.length Real.sqrt = 1 ∧
      ((traceRay Real.sqrt sc ray 0).x < 0 ∨ (traceRay Real.sqrt sc ray 0).y < 0 ∨
        (traceRay Real.sqrt sc ray 0).z < 0) := by
  rintro ⟨sc, ray, hsc, hray, hneg⟩
  obtain ⟨hx, hy, hz⟩ := traceRay_nonneg_aux sc hsc 6 ray 0 (by decide) hray
  rcases hneg with h | h | h <;> linarith

/-- C14 (amended): the traced colour has no strictly negative component: for
every scene within the ranges of the data model (radius > 0, albedo in
`[0, 1]^3`, reflectivity and transparency in `[0, 1]`, refractive index > 0,
light intensity ≥ 0), every ray of unit direction and every depth, none of the
three components of the colour returned by `traceRay` is `< 0`.  The statement
is the negation of the original one and no more: it does not say that a
component is `≥ 0`, which a NaN component of the `float` program would
violate. -/
theorem traceRay_no_negative (sc : Scene ℝ) (ray : Ray ℝ) (depth : Int) (hsc : sc.InRange)
    (hray : ray.direction.length Real.sqrt = 1) :
    ¬ (traceRay Real.sqrt sc ray depth).x < 0 ∧ ¬ (traceRay Real.sqrt sc ray depth).y < 0 ∧
      ¬ (traceRay Real.sqrt sc ray depth).z < 0 := by
  obtain ⟨hx, hy, hz⟩ :=
    traceRay_nonneg_aux sc hsc (6 - depth).toNat ray depth (le_refl _) hray
  exact ⟨not_lt.mpr hx, not_lt.mpr hy, not_lt.mpr hz⟩

/-- Witness for C14 (amended): the centre ray in the initial scene. -/
theorem traceRay_no_negative_witness :
    (initialScene : Scene ℝ).InRange ∧ (centerRay : Ray ℝ).direction.length Real.sqrt = 1 ∧
      ¬ (traceRay Real.sqrt (initialScene : Scene ℝ) centerRay 0).x < 0 ∧
      ¬ (traceRay Real.sqrt (initialScene : Scene ℝ) centerRay 0).y < 0 ∧
      ¬ (traceRay Real.sqrt (initialScene : Scene ℝ) centerRay 0).z < 0 :=
  ⟨initialScene_inRange, centerRay_direction_length,
    traceRay_no_negative initialScene centerRay 0 initialScene_inRange
      centerRay_direction_length⟩

/-- C15: the shadow test ignores the distance to the light: there are a scene,
a point and a normal for which every sphere hit by the shadow ray (there is
one) is hit at a distance strictly greater than the distance from the origin
of the shadow ray to the light, the shadow ray having unit direction, and
`computeLighting` still returns the attenuated value
`albedo * (max(0, normal . lightDir) * intensity * 0.2)`, which differs from
the unattenuated one because the diffuse term is positive. -/
theorem shadow_ignores_light_distance :
    ∃ (sc : Scene ℝ) (point normal : Vec3 ℝ),
      (∃ s ∈ sc.spheres,
        (intersectSphere Real.sqrt (shadowRay Real.sqrt sc point normal) s).isSome = true) ∧
      (∀ s ∈ sc.spheres, ∀ t : ℝ,
        intersectSphere Real.sqrt (shadowRay Real.sqrt sc point normal) s = some t →
        (sc.light.position - (shadowRay Real.sqrt sc point normal).origin).length Real.sqrt
          < t) ∧
      (shadowRay Real.sqrt sc point normal).direction.length Real.sqrt = 1 ∧
      0 < max 0 (normal.dot (lightDir Real.sqrt sc point)) * sc.light.intensity ∧
      ∀ albedo : Vec3 ℝ, computeLighting Real.sqrt sc point normal albedo =
        albedo * (max 0 (normal.dot (lightDir Real.sqrt sc point)) * sc.light.intensity * 0.2) := by
  refine ⟨beyondScene, ⟨0, 0, 0⟩, ⟨0, 0, 1⟩, ?_, ?_, ?_, ?_, ?_⟩
  · refine ⟨⟨⟨0, 0, 5⟩, 1, ⟨1, 1, 1⟩, 0, 0, 1, ⟨0, 0, 5⟩⟩, by simp [beyondScene], ?_⟩
    rw [shadowRay_hits_beyond _ (by simp [beyondScene])]
    rfl
  · intro s hs t ht
    rw [shadowRay_hits_beyond s hs] at ht
    injection ht with ht
    rw [light_distance_beyondScene, ← ht]
    norm_num
  · rw [shadowRay_beyondScene]
    simp [Vec3.length]
  · rw [lightDir_beyondScene]
    simp [Vec3.dot, beyondScene]
    norm_num
  · intro albedo
    have hhit : ∃ s ∈ (beyondScene : Scene ℝ).spheres,
        (intersectSphere Real.sqrt
          (shadowRay Real.sqrt (beyondScene : Scene ℝ) ⟨0, 0, 0⟩ ⟨0, 0, 1⟩) s).isSome
            = true := by
      refine ⟨⟨⟨0, 0, 5⟩, 1, ⟨1, 1, 1⟩, 0, 0, 1, ⟨0, 0, 5⟩⟩, by simp [beyondScene], ?_⟩
      rw [shadowRay_hits_beyond _ (by simp [beyondScene])]
      rfl
    rw [computeLighting_eq, shadowLoop_some_hit Real.sqrt _ _ _ hhit]
    rfl

/-- C16: the bias of `0.001` prevents self-intersection: for a sphere of
radius `r > 0`, a unit normal `n` and a non-zero direction `v` with
`v . n ≥ 0`, the ray from `center + n * (r + 0.001)` in direction `v` is
reported as missing the sphere; consequently the reflection ray spawned at a
hit, and the shadow ray of a surface point that faces the light, miss the
sphere they start on. -/
theorem bias_prevents_self_hit (sphere : Sphere ℝ) (hr : 0 < sphere.radius) :
    (∀ n v : Vec3 ℝ, n.length Real.sqrt = 1 → v ≠ ⟨0, 0, 0⟩ → 0 ≤ v.dot n →
        intersectSphere Real.sqrt ⟨sphere.center + n * (sphere.radius + 0.001), v⟩ sphere =
          none) ∧
      (∀ (ray : Ray ℝ) (t : ℝ), ray.direction ≠ ⟨0, 0, 0⟩ →
        intersectSphere Real.sqrt ray sphere = some t →
        intersectSphere Real.sqrt (reflectRay Real.sqrt ray sphere t) sphere = none) ∧
      (∀ (sc : Scene ℝ) (point : Vec3 ℝ),
        (point - sphere.center).length Real.sqrt = sphere.radius →
        0 ≤ ((point - sphere.center).normalize Real.sqrt).dot (lightDir Real.sqrt sc point) →
        intersectSphere Real.sqrt
          (shadowRay Real.sqrt sc point ((point - sphere.center).normalize Real.sqrt))
          sphere = none) := by
  refine ⟨?_, ?_, ?_⟩
  · intro n v _ _ hv
    exact biased_ray_misses sphere n v hr hv
  · intro ray t hdir hhit
    exact reflectRay_misses ray sphere t hdir hr hhit
  · intro sc point hl hface
    rw [shadowRay, biased_origin_eq sphere.center point sphere.radius hr hl]
    apply biased_ray_misses sphere _ _ hr
    have e : ∀ a b : Vec3 ℝ, a.dot b = b.dot a := by
      intro a b; simp only [Vec3.dot]; ring
    rw [e]
    exact hface

/-- Witness for C16: the matte red sphere, hit by the centre ray. -/
theorem bias_prevents_self_hit_witness :
    0 < (matteRed (1 : ℝ) ⟨0, 0, -5⟩).radius ∧
      intersectSphere Real.sqrt
        (reflectRay Real.sqrt (centerRay : Ray ℝ) (matteRed (1 : ℝ) ⟨0, 0, -5⟩) 4)
        (matteRed (1 : ℝ) ⟨0, 0, -5⟩) = none :=
  have hr : 0 < (matteRed (1 : ℝ) ⟨0, 0, -5⟩).radius := by simp [matteRed]
  ⟨hr, (bias_prevents_self_hit (matteRed 1 ⟨0, 0, -5⟩) hr).2.1 centerRay 4
    (by simp [centerRay]) (centerRay_hits_matteRed 1 ⟨0, 0, -5⟩)⟩

/-- C17: after `updateScene` (with the real sine and cosine) every sphere lies
on the circle of radius `0.5` around its anchor in the xy-plane, and the light
lies on the circle of radius 5 around the z-axis. -/
theorem updateScene_orbit (e : ℝ) (sc : Scene ℝ) :
    (∀ s ∈ (updateScene Real.sin Real.cos e sc).spheres,
        (s.center.x - s.originalCenter.x) ^ 2 + (s.center.y - s.originalCenter.y) ^ 2 = 0.25) ∧
      (updateScene Real.sin Real.cos e sc).light.position.x ^ 2 +
        (updateScene Real.sin Real.cos e sc).light.position.y ^ 2 = 25 := by
  constructor
  · intro s hs
    obtain ⟨i, s0, rfl⟩ := mem_updateSpheres Real.sin Real.cos e 0 sc.spheres s hs
    simp only [updateSphere]
    have h := Real.sin_sq_add_cos_sq (e * ((i + 1 : ℕ) : ℝ) * 0.5)
    ring_nf
    ring_nf at h
    nlinarith [h]
  · simp only [updateScene]
    have h := Real.sin_sq_add_cos_sq (e * 0.5)
    nlinarith [h]

/-- Counterexample to C18 as stated: in binary32 arithmetic the `inside` branch
is reached.  The ray from the origin in direction `(-4, -3, 0)` touches the
transparent sphere of radius `1.5` at `(-3.5, -4.5, 0)`: `a = 25`, `b = -55`,
`c = 30.25` and `discr = 0` are computed exactly, `t = 55 / 50` rounds up to
`9227469 / 2^23`, the hit point `(-4 t, -3 t, 0)` lies just past the point of
contact, the normal is `(-10066331 / 2^24, 13421772 / 2^24, 0)`, and
`direction . normal = 2^-21 > 0`, so `inside` is true. -/
theorem inside_branch_reached_binary32 :
    (tangentRay.direction ≠ ⟨0, 0, 0⟩ ∧ 0 < tangentSphere.radius ∧
        0 < tangentSphere.transparency) ∧
      intersectSphere32 tangentRay tangentSphere = some (some (9227469 / 8388608)) ∧
      (hitNormal32 tangentRay tangentSphere (9227469 / 8388608)).map
          (fun n => (n.x, n.y, n.z)) =
        some (-10066331 / 16777216, 13421772 / 16777216, 0) ∧
      directionDotNormal32 tangentRay tangentSphere (9227469 / 8388608) =
        some (1 / 2097152) ∧
      insideFlag32 tangentRay tangentSphere (9227469 / 8388608) = some true := by
  refine ⟨⟨?_, ?_, ?_⟩, ?_, ?_, ?_, ?_⟩
  · simp [tangentRay]
  · decide!
  · decide!
  · decide!
  · decide!
  · decide!
  · decide!

/-- C18 (amended): in exact real arithmetic the `inside` branch of the
refraction code is unreachable: for a ray with non-zero direction, at every
reported hit on a sphere of positive radius the outward normal `n` satisfies
`direction . n ≤ 0`; so at every hit found by the nearest-hit scan of
`traceRay` the flag `inside` is false, the normal is not flipped, and `refract`
is called with `n1 = 1` and `n2 = refractiveIndex`.  The margin is zero (at a
tangent hit `direction . n = 0`), and the rounding of binary32 arithmetic can
make the computed value positive, as the counterexample above shows. -/
theorem inside_branch_unreachable (ray : Ray ℝ) (hdir : ray.direction ≠ ⟨0, 0, 0⟩) :
    (∀ (sphere : Sphere ℝ) (t : ℝ), 0 < sphere.radius →
        intersectSphere Real.sqrt ray sphere = some t →
        ray.direction.dot ((ray.pointAt t - sphere.center).normalize Real.sqrt) ≤ 0) ∧
      (∀ (sc : Scene ℝ) (tMin : ℝ) (i : Nat) (hit : Sphere ℝ),
        nearestHit Real.sqrt ray sc.spheres = some (tMin, i, hit) → 0 < hit.radius →
        insideFlag Real.sqrt ray hit tMin = false ∧
          refractNorm Real.sqrt ray hit tMin = hitNormal Real.sqrt ray hit tMin ∧
          refractN1 Real.sqrt ray hit tMin = 1 ∧
          refractN2 Real.sqrt ray hit tMin = hit.refractiveIndex) := by
  constructor
  · intro sphere t _ hhit
    exact hitNormal_dot_nonpos ray sphere t hdir hhit
  · intro sc tMin i hit hn _
    have hhit := (nearestHit_some_hit Real.sqrt ray sc.spheres tMin i hit hn).2
    have hf := insideFlag_false ray hit tMin hdir hhit
    simp [refractNorm, refractN1, refractN2, hf]

/-- Witness for C18 (amended): the centre ray, which hits the matte red
sphere. -/
theorem inside_branch_unreachable_witness :
    (centerRay : Ray ℝ).direction ≠ ⟨0, 0, 0⟩ ∧
      insideFlag Real.sqrt (centerRay : Ray ℝ) (matteRed 1 ⟨0, 0, -5⟩) 4 = false :=
  have hdir : (centerRay : Ray ℝ).direction ≠ ⟨0, 0, 0⟩ := by
    simp [centerRay]
  ⟨hdir, ((inside_branch_unreachable centerRay hdir).2 (matteScene 1 ⟨0, 0, -5⟩ ⟨1, 1, 1⟩ 0)
    4 0 (matteRed 1 ⟨0, 0, -5⟩) (nearestHit_matteScene 1 ⟨0, 0, -5⟩ ⟨1, 1, 1⟩ 0)
    (by simp [matteRed])).1⟩

/-- C19: for unit `d` and `N` and `n1, n2 > 0`, whenever `refract` returns
`true` the vector it writes has length exactly 1 and obeys Snell's law: its
component perpendicular to `N` is `n1 / n2` times that of `d`, and its
component along `N` is `-sqrt (1 - sinT2)`. -/
theorem refract_unit_snell (d N : Vec3 ℝ) (n1 n2 : ℝ) (r : Vec3 ℝ)
    (hd : d.length Real.sqrt = 1) (hN : N.length Real.sqrt = 1)
    (_hn1 : 0 < n1) (_hn2 : 0 < n2)
    (h : refract Real.sqrt d N n1 n2 = some r) :
    r.length Real.sqrt = 1 ∧
      r - N * r.dot N = (d - N * d.dot N) * (n1 / n2) ∧
      r.dot N = -Real.sqrt (1 - (n1 / n2) ^ 2 * (1 - (d.dot N) ^ 2)) := by
  have hlen := refract_length d N n1 n2 r hd hN h
  obtain ⟨-, hr⟩ := (refract_some_iff d N n1 n2 r).mp h
  have hNN : N.x * N.x + N.y * N.y + N.z * N.z = 1 := Vec3.dot_self_of_length_one N hN
  have e : n1 / n2 * (n1 / n2) * (1 - -d.dot N * -d.dot N) =
      (n1 / n2) ^ 2 * (1 - (d.dot N) ^ 2) := by ring
  rw [e] at hr
  have hdot : r.dot N = -Real.sqrt (1 - (n1 / n2) ^ 2 * (1 - (d.dot N) ^ 2)) := by
    rw [hr]
    simp only [Vec3.dot, Vec3.add_def, Vec3.scale_def]
    linear_combination (n1 / n2 * -(d.x * N.x + d.y * N.y + d.z * N.z) -
      Real.sqrt (1 - (n1 / n2) ^ 2 * (1 - (d.x * N.x + d.y * N.y + d.z * N.z) ^ 2))) * hNN
  refine ⟨hlen, ?_, hdot⟩
  rw [hdot, hr]
  simp only [Vec3.dot, Vec3.add_def, Vec3.sub_def, Vec3.scale_def]
  ext <;> simp only [] <;> ring

/-- Witness for C19: the ray along the normal entering glass. -/
theorem refract_unit_snell_witness :
    (⟨0, 0, -1⟩ : Vec3 ℝ).length Real.sqrt = 1 ∧
      (⟨0, 0, 1⟩ : Vec3 ℝ).length Real.sqrt = 1 ∧
      refract Real.sqrt (⟨0, 0, -1⟩ : Vec3 ℝ) ⟨0, 0, 1⟩ 1 1.5 = some ⟨0, 0, -1⟩ ∧
      (⟨0, 0, -1⟩ : Vec3 ℝ).length Real.sqrt = 1 :=
  have hd : (⟨0, 0, -1⟩ : Vec3 ℝ).length Real.sqrt = 1 := by simp [Vec3.length]
  have hN : (⟨0, 0, 1⟩ : Vec3 ℝ).length Real.sqrt = 1 := by simp [Vec3.length]
  have h : refract Real.sqrt (⟨0, 0, -1⟩ : Vec3 ℝ) ⟨0, 0, 1⟩ 1 1.5 = some ⟨0, 0, -1⟩ := by
    rw [refract_some_iff]
    constructor
    · simp only [Vec3.dot]; norm_num
    · simp only [Vec3.dot, Vec3.add_def, Vec3.scale_def]
      have e : (1 : ℝ) - 1 / 1.5 * (1 / 1.5) * (1 - -(0 * 0 + 0 * 0 + -1 * 1) *
          -(0 * 0 + 0 * 0 + -1 * 1)) = 1 := by norm_num
      rw [e, Real.sqrt_one]
      ext <;> simp only [] <;> norm_num
  ⟨hd, hN, h, (refract_unit_snell _ _ 1 1.5 _ hd hN (by norm_num) (by norm_num) h).1⟩

/-- C20: for every unit ray direction `d` and unit normal `n`, the Fresnel
weight `0.1 + 0.9 * (1 - |d . n|)^5` computed by `traceRay` lies in `[0.1, 1]`,
so the weights `fresnel` and `1 - fresnel` both lie in `[0, 1]` and sum to 1. -/
theorem fresnel_range (d n : Vec3 ℝ) (hd : d.length Real.sqrt = 1)
    (hn : n.length Real.sqrt = 1) :
    (0.1 ≤ fresnel d n ∧ fresnel d n ≤ 1) ∧
      (0 ≤ fresnel d n ∧ fresnel d n ≤ 1) ∧
      (0 ≤ 1 - fresnel d n ∧ 1 - fresnel d n ≤ 1) ∧
      fresnel d n + (1 - fresnel d n) = 1 := by
  obtain ⟨h1, h2⟩ := fresnel_bounds d n (abs_dot_le_one d n hd hn)
  refine ⟨⟨h1, h2⟩, ⟨?_, h2⟩, ⟨?_, ?_⟩, ?_⟩
  · linarith
  · linarith
  · linarith
  · ring

/-- Witness for C20: the centre ray direction and the normal `(0, 0, 1)`. -/
theorem fresnel_range_witness :
    (⟨0, 0, -1⟩ : Vec3 ℝ).length Real.sqrt = 1 ∧
      (⟨0, 0, 1⟩ : Vec3 ℝ).length Real.sqrt = 1 ∧
      (0.1 ≤ fresnel (⟨0, 0, -1⟩ : Vec3 ℝ) ⟨0, 0, 1⟩ ∧
        fresnel (⟨0, 0, -1⟩ : Vec3 ℝ) ⟨0, 0, 1⟩ ≤ 1) :=
  have hd : (⟨0, 0, -1⟩ : Vec3 ℝ).length Real.sqrt = 1 := by simp [Vec3.length]
  have hn : (⟨0, 0, 1⟩ : Vec3 ℝ).length Real.sqrt = 1 := by simp [Vec3.length]
  ⟨hd, hn, (fresnel_range _ _ hd hn).1⟩

end RayTracer
